import Mathlib

/-!
Verification development for the slurry repository.

This file gives a shallow embedding, in Lean 4, of the parts of the slurry
code base that the checked properties are about:

* the SLURM job data model (crates/slurry/src/lib.rs, JobState) and the
  squeue row record (crates/slurry/src/data_extraction/squeue.rs, SqueueRow);
* the structdiff-derived structural delta machinery (the Difference derive
  on SqueueRow: a tagged change per non-skipped field, diff collects the
  changed fields with their new values, apply sets them);
* the duration parser parse_slurm_duration (crates/slurry/src/lib.rs);
* the row parser parse_from_strs (crates/slurry/src/data_extraction/squeue.rs);
* the archive writer squeue_diff (same file), with the filesystem modelled
  as an explicit list of created paths and the fallibility of the create and
  write calls injected as boolean oracles;
* the OCEL synthesizer extract_ocel_from_slurm_diffs
  (crates/slurry/src/event_data_extraction/mod.rs), replaying one archived
  job (initial snapshot plus delta files) into an object and its events, and
  the final assembly of objects and events;
* the tauri commands start_squeue_loop and its inter-round sleep loop
  (app/src-tauri/src/lib.rs), with the spawned task count and the
  cancellation flag made explicit.

Machine integers (u64, usize) are modelled as Nat; the only place where the
source can overflow is the duration arithmetic, and every concrete input used
below is far below 2 to the 64.  Timestamps (chrono NaiveDateTime and
DateTime) are modelled as Int instants in seconds; the local-timezone
conversion at UTC+01:00 becomes subtraction of 3600.  The f64 priority field
is modelled as Int: it is only ever compared for equality and carried around,
never used arithmetically (NaN behaviour of f64 equality is outside this
model).  PathBuf is modelled as String.
-/

namespace Slurry

/-- JobState from crates/slurry/src/lib.rs. -/
inductive JobState where
  | RUNNING
  | PENDING
  | COMPLETING
  | COMPLETED
  | CANCELLED
  | FAILED
  | TIMEOUT
  | OUT_OF_MEMORY
  | NODE_FAIL
  | OTHER (tag : String)
  deriving DecidableEq, Repr

/-- The FromStr instance for JobState: unknown tags fall back to OTHER. -/
def JobState.fromStr (s : String) : JobState :=
  match s with
  | "RUNNING" => .RUNNING
  | "PENDING" => .PENDING
  | "COMPLETING" => .COMPLETING
  | "COMPLETED" => .COMPLETED
  | "CANCELLED" => .CANCELLED
  | "FAILED" => .FAILED
  | "TIMEOUT" => .TIMEOUT
  | "OUT_OF_MEMORY" => .OUT_OF_MEMORY
  | "NODE_FAIL" => .NODE_FAIL
  | s => .OTHER s

/-- SqueueRow from crates/slurry/src/data_extraction/squeue.rs, in the
declaration order of the source.  Durations are seconds (Nat), date-times are
Int instants, PathBuf is String, f64 priority is Int (see the header note).
The fields time_left and time carry a difference(skip) attribute in the
source and are excluded from the structural diff. -/
structure SqueueRow where
  account : String
  job_id : String
  exec_host : Option String
  min_cpus : Nat
  cpus : Nat
  nodes : Nat
  end_time : Option Int
  dependency : Option String
  features : String
  array_job_id : String
  group : String
  step_job_id : String × Option String
  time_limit : Option Nat
  time_left : Option Nat
  name : String
  min_memory : String
  time : Option Nat
  priority : Int
  partition : String
  state : JobState
  reason : String
  start_time : Option Int
  submit_time : Int
  work_dir : String
  command : String
  deriving DecidableEq, Repr

/-- The tagged field-change type generated by the Difference derive on
SqueueRow: one variant per field that does not carry difference(skip),
holding the new value.  time_left and time are skipped. -/
inductive RowDiff where
  | account (v : String)
  | job_id (v : String)
  | exec_host (v : Option String)
  | min_cpus (v : Nat)
  | cpus (v : Nat)
  | nodes (v : Nat)
  | end_time (v : Option Int)
  | dependency (v : Option String)
  | features (v : String)
  | array_job_id (v : String)
  | group (v : String)
  | step_job_id (v : String × Option String)
  | time_limit (v : Option Nat)
  | name (v : String)
  | min_memory (v : String)
  | priority (v : Int)
  | partition (v : String)
  | state (v : JobState)
  | reason (v : String)
  | start_time (v : Option Int)
  | submit_time (v : Int)
  | work_dir (v : String)
  | command (v : String)
  deriving DecidableEq, Repr

/-- One tag per diffable field, used to reason about which field a RowDiff
entry touches. -/
inductive FieldTag where
  | account | job_id | exec_host | min_cpus | cpus | nodes | end_time
  | dependency | features | array_job_id | group | step_job_id | time_limit
  | name | min_memory | priority | partition | state | reason | start_time
  | submit_time | work_dir | command
  deriving DecidableEq, Repr

/-- The field a RowDiff entry changes. -/
def touches : RowDiff → FieldTag
  | .account _ => .account
  | .job_id _ => .job_id
  | .exec_host _ => .exec_host
  | .min_cpus _ => .min_cpus
  | .cpus _ => .cpus
  | .nodes _ => .nodes
  | .end_time _ => .end_time
  | .dependency _ => .dependency
  | .features _ => .features
  | .array_job_id _ => .array_job_id
  | .group _ => .group
  | .step_job_id _ => .step_job_id
  | .time_limit _ => .time_limit
  | .name _ => .name
  | .min_memory _ => .min_memory
  | .priority _ => .priority
  | .partition _ => .partition
  | .state _ => .state
  | .reason _ => .reason
  | .start_time _ => .start_time
  | .submit_time _ => .submit_time
  | .work_dir _ => .work_dir
  | .command _ => .command

/-- A sum of the field value types, so that any diffable field of a row can
be projected uniformly. -/
inductive ProjVal where
  | str (v : String)
  | ostr (v : Option String)
  | nat (v : Nat)
  | onat (v : Option Nat)
  | oint (v : Option Int)
  | int (v : Int)
  | pair (v : String × Option String)
  | st (v : JobState)
  deriving DecidableEq, Repr

/-- Projection of a diffable field out of a row, as a ProjVal. -/
def proj (F : FieldTag) (r : SqueueRow) : ProjVal :=
  match F with
  | .account => .str r.account
  | .job_id => .str r.job_id
  | .exec_host => .ostr r.exec_host
  | .min_cpus => .nat r.min_cpus
  | .cpus => .nat r.cpus
  | .nodes => .nat r.nodes
  | .end_time => .oint r.end_time
  | .dependency => .ostr r.dependency
  | .features => .str r.features
  | .array_job_id => .str r.array_job_id
  | .group => .str r.group
  | .step_job_id => .pair r.step_job_id
  | .time_limit => .onat r.time_limit
  | .name => .str r.name
  | .min_memory => .str r.min_memory
  | .priority => .int r.priority
  | .partition => .str r.partition
  | .state => .st r.state
  | .reason => .str r.reason
  | .start_time => .oint r.start_time
  | .submit_time => .int r.submit_time
  | .work_dir => .str r.work_dir
  | .command => .str r.command

/-- Applying one field change to a row (one step of StructDiff apply_mut). -/
def applyOne (r : SqueueRow) : RowDiff → SqueueRow
  | .account v => { r with account := v }
  | .job_id v => { r with job_id := v }
  | .exec_host v => { r with exec_host := v }
  | .min_cpus v => { r with min_cpus := v }
  | .cpus v => { r with cpus := v }
  | .nodes v => { r with nodes := v }
  | .end_time v => { r with end_time := v }
  | .dependency v => { r with dependency := v }
  | .features v => { r with features := v }
  | .array_job_id v => { r with array_job_id := v }
  | .group v => { r with group := v }
  | .step_job_id v => { r with step_job_id := v }
  | .time_limit v => { r with time_limit := v }
  | .name v => { r with name := v }
  | .min_memory v => { r with min_memory := v }
  | .priority v => { r with priority := v }
  | .partition v => { r with partition := v }
  | .state v => { r with state := v }
  | .reason v => { r with reason := v }
  | .start_time v => { r with start_time := v }
  | .submit_time v => { r with submit_time := v }
  | .work_dir v => { r with work_dir := v }
  | .command v => { r with command := v }

/-- StructDiff apply_mut: apply a sequence of field changes in order. -/
def applyList (r : SqueueRow) (l : List RowDiff) : SqueueRow :=
  l.foldl applyOne r

/-- Per-field contribution to the diff: a singleton change when the field
differs, nothing when it is equal.  One definition per diffable field, in
declaration order; their concatenation is the derived diff. -/
def dAccount (p c : SqueueRow) : List RowDiff :=
  if p.account = c.account then [] else [.account c.account]

def dJobId (p c : SqueueRow) : List RowDiff :=
  if p.job_id = c.job_id then [] else [.job_id c.job_id]

def dExecHost (p c : SqueueRow) : List RowDiff :=
  if p.exec_host = c.exec_host then [] else [.exec_host c.exec_host]

def dMinCpus (p c : SqueueRow) : List RowDiff :=
  if p.min_cpus = c.min_cpus then [] else [.min_cpus c.min_cpus]

def dCpus (p c : SqueueRow) : List RowDiff :=
  if p.cpus = c.cpus then [] else [.cpus c.cpus]

def dNodes (p c : SqueueRow) : List RowDiff :=
  if p.nodes = c.nodes then [] else [.nodes c.nodes]

def dEndTime (p c : SqueueRow) : List RowDiff :=
  if p.end_time = c.end_time then [] else [.end_time c.end_time]

def dDependency (p c : SqueueRow) : List RowDiff :=
  if p.dependency = c.dependency then [] else [.dependency c.dependency]

def dFeatures (p c : SqueueRow) : List RowDiff :=
  if p.features = c.features then [] else [.features c.features]

def dArrayJobId (p c : SqueueRow) : List RowDiff :=
  if p.array_job_id = c.array_job_id then [] else [.array_job_id c.array_job_id]

def dGroup (p c : SqueueRow) : List RowDiff :=
  if p.group = c.group then [] else [.group c.group]

def dStepJobId (p c : SqueueRow) : List RowDiff :=
  if p.step_job_id = c.step_job_id then [] else [.step_job_id c.step_job_id]

def dTimeLimit (p c : SqueueRow) : List RowDiff :=
  if p.time_limit = c.time_limit then [] else [.time_limit c.time_limit]

def dName (p c : SqueueRow) : List RowDiff :=
  if p.name = c.name then [] else [.name c.name]

def dMinMemory (p c : SqueueRow) : List RowDiff :=
  if p.min_memory = c.min_memory then [] else [.min_memory c.min_memory]

def dPriority (p c : SqueueRow) : List RowDiff :=
  if p.priority = c.priority then [] else [.priority c.priority]

def dPartition (p c : SqueueRow) : List RowDiff :=
  if p.partition = c.partition then [] else [.partition c.partition]

def dState (p c : SqueueRow) : List RowDiff :=
  if p.state = c.state then [] else [.state c.state]

def dReason (p c : SqueueRow) : List RowDiff :=
  if p.reason = c.reason then [] else [.reason c.reason]

def dStartTime (p c : SqueueRow) : List RowDiff :=
  if p.start_time = c.start_time then [] else [.start_time c.start_time]

def dSubmitTime (p c : SqueueRow) : List RowDiff :=
  if p.submit_time = c.submit_time then [] else [.submit_time c.submit_time]

def dWorkDir (p c : SqueueRow) : List RowDiff :=
  if p.work_dir = c.work_dir then [] else [.work_dir c.work_dir]

def dCommand (p c : SqueueRow) : List RowDiff :=
  if p.command = c.command then [] else [.command c.command]

/-- StructDiff diff on SqueueRow: the changed diffable fields with their new
values, one entry per changed field, in declaration order.  time_left and
time are skipped by the derive. -/
def diff (p c : SqueueRow) : List RowDiff :=
  dAccount p c ++ dJobId p c ++ dExecHost p c ++ dMinCpus p c ++ dCpus p c ++
  dNodes p c ++ dEndTime p c ++ dDependency p c ++ dFeatures p c ++
  dArrayJobId p c ++ dGroup p c ++ dStepJobId p c ++ dTimeLimit p c ++
  dName p c ++ dMinMemory p c ++ dPriority p c ++ dPartition p c ++
  dState p c ++ dReason p c ++ dStartTime p c ++ dSubmitTime p c ++
  dWorkDir p c ++ dCommand p c

/-- Equality on the diffable field set: every field of SqueueRow except the
volatile time_left and time. -/
def diffableEq (p c : SqueueRow) : Prop :=
  p.account = c.account ∧ p.job_id = c.job_id ∧ p.exec_host = c.exec_host ∧
  p.min_cpus = c.min_cpus ∧ p.cpus = c.cpus ∧ p.nodes = c.nodes ∧
  p.end_time = c.end_time ∧ p.dependency = c.dependency ∧
  p.features = c.features ∧ p.array_job_id = c.array_job_id ∧
  p.group = c.group ∧ p.step_job_id = c.step_job_id ∧
  p.time_limit = c.time_limit ∧ p.name = c.name ∧
  p.min_memory = c.min_memory ∧ p.priority = c.priority ∧
  p.partition = c.partition ∧ p.state = c.state ∧ p.reason = c.reason ∧
  p.start_time = c.start_time ∧ p.submit_time = c.submit_time ∧
  p.work_dir = c.work_dir ∧ p.command = c.command

instance (p c : SqueueRow) : Decidable (diffableEq p c) := by
  unfold diffableEq; infer_instance

/-- str::split on a single separator character, as used by the source via
vals[11].split. Splitting never yields an empty list; an empty input gives
one empty piece, and adjacent separators give empty pieces. -/
def splitChars (sep : Char) : List Char → List (List Char)
  | [] => [[]]
  | c :: rest =>
    if c = sep then [] :: splitChars sep rest
    else
      match splitChars sep rest with
      | s :: ss => (c :: s) :: ss
      | [] => [[c]]

/-- u64::from_str on a character list, restricted to plain decimal strings
(the source also accepts a leading plus sign, which no input in this
development uses); values at or above 2 to the 64 fail to parse, as in
Rust. -/
def parseNatChars64 (l : List Char) : Option Nat :=
  if l.isEmpty then none
  else if l.all (fun c => c.isDigit) then
    let n := l.foldl (fun n c => n * 10 + (c.toNat - 48)) 0
    if n < 2 ^ 64 then some n else none
  else none

/-- u64::from_str on a string. -/
def parseU64 (s : String) : Option Nat :=
  parseNatChars64 s.data

/-- parse_slurm_duration from crates/slurry/src/lib.rs, returning seconds.
The source comment documents the intended format days-hours:minutes:seconds.
Note that in the three-component branch the source parses index 1 of the
colon-split both for the minutes and for the seconds variable, and never
reads index 2; this embedding reproduces that behaviour faithfully. -/
def parse_slurm_duration (s : String) : Option Nat := do
  let v := splitChars '-' s.data
  let has_days_part : Bool := v.length > 1
  let (dur0, hms_part) ←
    if has_days_part then
      (parseNatChars64 (v.headI)).map (fun days => (days * 60 * 60 * 24, v.getD 1 []))
    else
      some ((0 : Nat), v.headI)
  let hms := splitChars ':' hms_part
  if hms.length = 3 then do
    let hours ← parseNatChars64 (hms.getD 0 [])
    let mins ← parseNatChars64 (hms.getD 1 [])
    let secs ← parseNatChars64 (hms.getD 1 [])
    some (dur0 + (secs + 60 * mins + 60 * 60 * hours))
  else if hms.length = 2 then do
    let mins ← parseNatChars64 (hms.getD 0 [])
    let secs ← parseNatChars64 (hms.getD 1 [])
    some (dur0 + (secs + 60 * mins))
  else if hms.length = 1 then
    if has_days_part then
      (parseNatChars64 (hms.getD 0 [])).map (fun hours => dur0 + 60 * 60 * hours)
    else
      (parseNatChars64 (hms.getD 0 [])).map (fun mins => dur0 + 60 * mins)
  else
    none

/-- The step_job_id computation of parse_from_strs: the first two items of
the underscore-split iterator (next() twice), i.e. the first split piece and
optionally the second split piece. -/
def stepJobIdOf (s : String) : String × Option String :=
  match splitChars '_' s.data with
  | a :: rest => (⟨a⟩, rest.head?.map (fun l => (⟨l⟩ : String)))
  | [] => ("", none)

/-- The optional-date sentinel of parse_from_strs: N/A is absent, anything
else must parse (a parse failure fails the row). -/
def parseOptDate (pd : String → Option Int) (s : String) : Option (Option Int) :=
  match s with
  | "N/A" => some none
  | s => (pd s).map some

/-- SqueueRow::parse_from_strs from crates/slurry/src/data_extraction/squeue.rs.
The external chrono date parser (format %Y-%m-%dT%H:%M:%S) and the f64 parser
are passed in as pd and pf; a none from either of those, or from the numeric
field parses, fails the whole row, exactly like the question-mark operator in
the source.  Duration fields fall back to none on parse failure without
failing the row. -/
def parse_from_strs (pd : String → Option Int) (pf : String → Option Int)
    (vals : List String) : Option SqueueRow :=
  if vals.length ≠ 25 then none
  else do
    let min_cpus ← parseU64 (vals.getD 3 "")
    let cpus ← parseU64 (vals.getD 4 "")
    let nodes ← parseU64 (vals.getD 5 "")
    let end_time ← parseOptDate pd (vals.getD 6 "")
    let priority ← pf (vals.getD 17 "")
    let start_time ← parseOptDate pd (vals.getD 21 "")
    let submit_time ← pd (vals.getD 22 "")
    some
      { account := vals.getD 0 ""
        job_id := vals.getD 1 ""
        exec_host :=
          match vals.getD 2 "" with
          | "n/a" => none
          | s => some s
        min_cpus := min_cpus
        cpus := cpus
        nodes := nodes
        end_time := end_time
        dependency :=
          match vals.getD 7 "" with
          | "(null)" => none
          | s => some s
        features := vals.getD 8 ""
        array_job_id := vals.getD 9 ""
        group := vals.getD 10 ""
        step_job_id := stepJobIdOf (vals.getD 11 "")
        time_limit :=
          match vals.getD 12 "" with
          | "INVALID" => none
          | s => parse_slurm_duration s
        time_left :=
          match vals.getD 13 "" with
          | "INVALID" => none
          | s => parse_slurm_duration s
        name := vals.getD 14 ""
        min_memory := vals.getD 15 ""
        time :=
          match vals.getD 16 "" with
          | "INVALID" => none
          | s => parse_slurm_duration s
        priority := priority
        partition := vals.getD 18 ""
        state := JobState.fromStr (vals.getD 19 "")
        reason := vals.getD 20 ""
        start_time := start_time
        submit_time := submit_time
        work_dir := vals.getD 23 ""
        command := vals.getD 24 "" }

/-- Lookup in the in-memory known-jobs map (a HashMap in the source). -/
def lookupJob (known : List (String × SqueueRow)) (j : String) : Option SqueueRow :=
  (known.find? (fun kv => kv.1 == j)).map (fun kv => kv.2)

/-- Outcome of one completed squeue_diff round: the replaced known-jobs map,
the grown all-ids set, the list of file paths created (as path segment
lists relative to the archive root), and the warnings printed. -/
structure RoundOutcome where
  known : List (String × SqueueRow)
  allIds : List String
  files : List (List String)
  log : List String
  deriving DecidableEq, Repr

/-- The per-row body of squeue_diff.  createOk and dirOk tell whether
File::create and create_dir_all succeed on a given path; the source unwraps
both, so a failure there is a panic, modelled as an error that aborts the
round.  writeOk tells whether the serde_json write succeeds; a failure there
is only logged and the row is skipped, as in the source.  A known job with a
non-empty diff gets a DELTA file; an unknown job gets a directory and a full
snapshot; an unknown job whose id is already in all_ids is logged as
re-appeared but still written. -/
def processRows (createOk dirOk writeOk : List String → Bool) (t : String)
    (known : List (String × SqueueRow)) (allIds : List String) :
    List SqueueRow → Except String (List (List String) × List String)
  | [] => .ok ([], [])
  | row :: rest => do
    let (fs, lg) ←
      match lookupJob known row.job_id with
      | some prev =>
        let d := diff prev row
        if d.isEmpty then Except.ok (([] : List (List String)), ([] : List String))
        else
          let p := [row.job_id, "DELTA-" ++ t ++ ".json"]
          if createOk p then
            Except.ok ([p],
              if writeOk p then [] else ["Failed to create file for " ++ row.job_id])
          else Except.error ("panic: File::create failed for " ++ row.job_id)
      | none =>
        let lg0 : List String :=
          if row.job_id ∈ allIds then ["Job re-appeared! Maybe IDs get reused?"] else []
        if dirOk [row.job_id] then
          let p := [row.job_id, t ++ ".json"]
          if createOk p then
            Except.ok ([p],
              lg0 ++ (if writeOk p then [] else ["Failed to create file for " ++ row.job_id]))
          else Except.error ("panic: File::create failed for " ++ row.job_id)
        else Except.error ("panic: create_dir_all failed for " ++ row.job_id)
    let (fs2, lg2) ← processRows createOk dirOk writeOk t known allIds rest
    .ok (fs ++ fs2, lg ++ lg2)

/-- squeue_diff from crates/slurry/src/data_extraction/squeue.rs, for one
round at cleaned timestamp t.  The root directory is created (the source
propagates a failure there with the question-mark operator), the id-set file
is created (unwrap: failure panics) and written (failure logged), then each
row is processed; finally the known-jobs map is replaced by the map of the
current rows and all_ids is extended with the round ids. -/
def runRound (createOk dirOk writeOk : List String → Bool) (t : String)
    (rows : List SqueueRow) (known : List (String × SqueueRow))
    (allIds : List String) : Except String RoundOutcome :=
  let rowIds := (rows.map (fun r => r.job_id)).dedup
  if dirOk [] then
    let idPath := [t ++ ".json"]
    if createOk idPath then
      let log0 : List String :=
        if writeOk idPath then [] else ["Failed to create file for all jobs ids"]
      match processRows createOk dirOk writeOk t known allIds rows with
      | .ok (fs, lg) =>
        .ok { known := rows.map (fun r => (r.job_id, r))
              allIds := allIds ++ rowIds.filter (fun j => !(allIds.contains j))
              files := idPath :: fs
              log := log0 ++ lg }
      | .error e => .error e
    else Except.error "panic: File::create failed for the all-ids file"
  else Except.error "create_dir_all failed for the archive root"

/-- The always-succeeding filesystem oracle. -/
def allOk : List String → Bool := fun _ => true

/-- Accumulated archive state across rounds: the loop-owned known-jobs map
and all-ids set, plus every file created so far. -/
structure ArchState where
  known : List (String × SqueueRow)
  allIds : List String
  files : List (List String)
  deriving DecidableEq, Repr

/-- The poll loop run for a given list of rounds (timestamp and parsed rows
per round) with all filesystem operations succeeding.  The error branch is
unreachable under the all-ok oracle and returns the state unchanged. -/
def runRounds : List (String × List SqueueRow) → ArchState → ArchState
  | [], st => st
  | (t, rows) :: rest, st =>
    match runRound allOk allOk allOk t rows st.known st.allIds with
    | .ok out => runRounds rest ⟨out.known, out.allIds, st.files ++ out.files⟩
    | .error _ => st

/-- The empty archive state before the first round. -/
def emptyArch : ArchState := ⟨[], [], []⟩

/-- Number of files in the archive that live in the subdirectory of job j
and are not DELTA files: path length two, first segment j, second segment
not starting with DELTA-. -/
def snapshotFileCount (j : String) (files : List (List String)) : Nat :=
  (files.filter (fun f =>
    f.length == 2 && f.getD 0 "" == j &&
      !(("DELTA-".data).isPrefixOf (f.getD 1 "").data))).length

/-- Specification count for the amended archive-layout claim: the number of
rounds in which job j is present but was absent from the immediately
preceding round (with prevHas telling whether j was present before the first
listed round). -/
def onsetCount (j : String) : Bool → List (String × List SqueueRow) → Nat
  | _, [] => 0
  | prevHas, (_, rows) :: rest =>
    let has := rows.any (fun r => r.job_id == j)
    (if has && !prevHas then 1 else 0) + onsetCount j has rest

/-- An OCEL attribute value: string or integer, matching the uses in the
source (state, command, work_dir, min_memory as strings; cpus, priority as
numbers). -/
inductive AttrVal where
  | str (v : String)
  | int (v : Int)
  deriving DecidableEq, Repr

/-- An OCEL event: id, event type, time (Int instant), and relationships as
pairs of target object id and qualifier. -/
structure Event where
  id : String
  etype : String
  time : Int
  rels : List (String × String)
  deriving DecidableEq, Repr

/-- An OCEL object: id, object type, timestamped attributes, relationships. -/
structure Object where
  id : String
  otype : String
  attrs : List (String × AttrVal × Int)
  rels : List (String × String)
  deriving DecidableEq, Repr

/-- The Debug rendering of a JobState, as produced by the format macro in
the source when the state attribute is appended. -/
def stateDebug : JobState → String
  | .RUNNING => "RUNNING"
  | .PENDING => "PENDING"
  | .COMPLETING => "COMPLETING"
  | .COMPLETED => "COMPLETED"
  | .CANCELLED => "CANCELLED"
  | .FAILED => "FAILED"
  | .TIMEOUT => "TIMEOUT"
  | .OUT_OF_MEMORY => "OUT_OF_MEMORY"
  | .NODE_FAIL => "NODE_FAIL"
  | .OTHER s => "OTHER(\"" ++ s ++ "\")"

/-- command.split("/").last().unwrap_or_default(): the basename of a
slash-separated command string. -/
def basename (s : String) : String :=
  match (splitChars '/' s.data).getLast? with
  | some l => ⟨l⟩
  | none => ""

/-- The literal home-directory pattern of the account-normalization regex. -/
def homePreChars : List Char := "/rwthfs/rz/cluster/home/".data

/-- Leftmost search for the account-normalization regex
/rwthfs/rz/cluster/home/([^/]*)/.* — at each position, if the literal
pattern matches, the capture is the run of non-slash characters after it,
and the match succeeds when a slash follows that run; otherwise the search
moves one character right. -/
def findAccount : List Char → Option String
  | [] => none
  | c :: rest =>
    if homePreChars.isPrefixOf (c :: rest) then
      let after := (c :: rest).drop homePreChars.length
      let tok := after.takeWhile (fun ch => ch ≠ '/')
      if (after.drop tok.length).isEmpty then findAccount rest else some ⟨tok⟩
    else findAccount rest

/-- Account normalization in extract_ocel_from_slurm_diffs: an account equal
to the literal string default is replaced by the non-empty home-directory
token of work_dir when the regex matches, otherwise kept as default. -/
def normalizeAccount (row : SqueueRow) : String :=
  match row.account with
  | "default" =>
    match findAccount row.work_dir.data with
    | some tok => if tok ≠ "" then tok else "default"
    | none => "default"
  | s => s

/-- Event id piece and event type for a state-change delta, following the
match in extract_ocel_from_slurm_diffs.  RUNNING sets the ignore flag (the
Start event comes from the start_time path instead), and PENDING and OTHER
set it as well, so all three yield no event.  The remaining states yield the
given id piece (which the source splices as piece underscore base) and the
event type. -/
def stateEventInfo : JobState → Option (String × String)
  | .RUNNING => none
  | .COMPLETING => some ("ending-", "Job Ending")
  | .COMPLETED => some ("ended-", "Job Completed")
  | .CANCELLED => some ("cancelled-", "Job Cancelled")
  | .FAILED => some ("failed-", "Job Failed")
  | .TIMEOUT => some ("timeout-", "Job Timeout")
  | .OUT_OF_MEMORY => some ("oom-", "Job Out Of Memory")
  | .NODE_FAIL => some ("node-fail-", "Job Node Fail")
  | .PENDING => none
  | .OTHER _ => none

/-- The mutable state of one job replay inside the big per-job closure of
extract_ocel_from_slurm_diffs: the running SqueueRow, the accumulating Job
object, the committed events, and the buffered Start event. -/
structure ReplayState where
  row : SqueueRow
  obj : Object
  events : List Event
  startEv : Option Event
  deriving DecidableEq, Repr

/-- The body of the for-df-in-delta loop of extract_ocel_from_slurm_diffs,
for one field-change descriptor at delta timestamp dt.  s.row is the row
after apply_mut of the full delta, which is what the source reads in the
state and start_time arms.  Note that the state-change event id is built
from the length of the global ocel.events list, which is still empty during
the per-job phase, hence the literal 0; the id piece is prepended with an
underscore separator by the format call in the source. -/
def stepDf (dt : Int) (s : ReplayState) (df : RowDiff) : ReplayState :=
  match df with
  | .command c =>
    { s with obj := { s.obj with attrs := s.obj.attrs ++ [("command", .str (basename c), dt)] } }
  | .work_dir w =>
    { s with obj := { s.obj with attrs := s.obj.attrs ++ [("work_dir", .str w, dt)] } }
  | .min_memory m =>
    { s with obj := { s.obj with attrs := s.obj.attrs ++ [("min_memory", .str m, dt)] } }
  | .exec_host h =>
    match h with
    | some h =>
      { s with obj := { s.obj with rels := s.obj.rels ++ [("host_" ++ h, "executed on")] } }
    | none => s
  | .account _ => s
  | .state st =>
    let s2 :=
      { s with obj :=
          { s.obj with attrs := s.obj.attrs ++ [("state", .str (stateDebug s.row.state), dt)] } }
    match stateEventInfo st with
    | some (piece, ty) =>
      { s2 with events := s2.events ++
          [({ id := piece ++ "_" ++ s2.obj.id ++ "-" ++ Nat.repr 0,
              etype := ty, time := dt,
              rels := [(s2.obj.id, "job")] } : Event)] }
    | none => s2
  | .group _ => s
  | .partition _ => s
  | .job_id _ => s
  | .min_cpus _ => s
  | .cpus _ => s
  | .nodes _ => s
  | .end_time _ => s
  | .dependency _ => s
  | .features _ => s
  | .array_job_id _ => s
  | .step_job_id _ => s
  | .time_limit _ => s
  | .name _ => s
  | .priority p =>
    { s with obj := { s.obj with attrs := s.obj.attrs ++ [("priority", .int p, dt)] } }
  | .reason _ => s
  | .start_time st =>
    if s.row.state ≠ .PENDING then
      match st with
      | some st =>
        match s.startEv with
        | some e => { s with startEv := some { e with time := st - 3600 } }
        | none =>
          let e : Event :=
            { id := "start-" ++ s.obj.id ++ "-" ++ Nat.repr 0,
              etype := "Job Started", time := st - 3600,
              rels := [(s.obj.id, "job")] }
          { s with startEv := some e }
      | none => s
    else s
  | .submit_time _ => s

/-- One DELTA file of a job replay: apply_mut of the whole delta to the
running row, then the for-df-in-delta loop. -/
def stepDelta (s : ReplayState) (d : Int × List RowDiff) : ReplayState :=
  let s2 := { s with row := applyList s.row d.2 }
  d.2.foldl (stepDf d.1) s2

/-- One archived job as seen by the synthesizer after file handling: the
timestamp extracted from the initial snapshot filename, the parsed initial
SqueueRow, and the ordered DELTA files, each as a timestamp and a parsed
change sequence. -/
structure JobInput where
  dt0 : Int
  row0 : SqueueRow
  deltas : List (Int × List RowDiff)
  deriving DecidableEq, Repr

/-- The pre-loop seeding of the per-job closure of
extract_ocel_from_slurm_diffs: the Job object built from the initial
snapshot, the Submit event (id uses the length of the local events list,
zero at that point), and the buffered Start event when the initial state is
not PENDING and start_time is known (id uses length one).  Naive scheduler
timestamps are localized to UTC+01:00 and converted to UTC, hence minus
3600. -/
def processJobInit (jb : JobInput) : ReplayState :=
  let row := jb.row0
  let account := normalizeAccount row
  let o : Object :=
    { id := row.job_id
      otype := "Job"
      attrs :=
        [("command", .str (basename row.command), 0),
         ("work_dir", .str row.work_dir, 0),
         ("cpus", .int (Int.ofNat row.cpus), 0),
         ("min_memory", .str row.min_memory, 0),
         ("state", .str (stateDebug row.state), jb.dt0)]
      rels :=
        [("acc_" ++ account, "submitted by"),
         ("group_" ++ row.group, "submitted by group"),
         ("part_" ++ row.partition, "submitted on")] ++
        (match row.exec_host with
         | some h => [("host_" ++ h, "executed on")]
         | none => []) }
  let submitEv : Event :=
    { id := "submit-" ++ o.id ++ "-" ++ Nat.repr 0
      etype := "Submit Job"
      time := row.submit_time - 3600
      rels := [(o.id, "job"), ("acc_" ++ account, "submitter")] }
  let startEv0 : Option Event :=
    if row.state ≠ .PENDING then
      match row.start_time with
      | some st =>
        some
          { id := "start-" ++ o.id ++ "-" ++ Nat.repr 1
            etype := "Job Started"
            time := st - 3600
            rels :=
              [(o.id, "job"), ("group_" ++ row.group, "for")] ++
              (match row.exec_host with
               | some h => [("host_" ++ h, "host")]
               | none => []) }
      | none => none
    else none
  ⟨row, o, [submitEv], startEv0⟩

/-- The delta replay and final Start commit of the per-job closure. -/
def processJob (jb : JobInput) : Object × List Event :=
  let fin := jb.deltas.foldl stepDelta (processJobInit jb)
  (fin.obj, fin.events ++ fin.startEv.toList)

/-- All field-change descriptors of a job input, in replay order. -/
def deltasDiffs (jb : JobInput) : List RowDiff :=
  jb.deltas.flatMap (fun d => d.2)

/-- The account identifiers a job contributes to the shared accounts set:
only the normalized seed account (the account delta arm is commented out in
the source). -/
def jobAccounts (jb : JobInput) : List String :=
  [normalizeAccount jb.row0]

/-- The group identifiers a job contributes: the seed group and every group
delta value. -/
def jobGroups (jb : JobInput) : List String :=
  jb.row0.group ::
    (deltasDiffs jb).filterMap (fun d =>
      match d with
      | .group g => some g
      | _ => none)

/-- The partition identifiers a job contributes: the seed partition and
every partition delta value. -/
def jobPartitions (jb : JobInput) : List String :=
  jb.row0.partition ::
    (deltasDiffs jb).filterMap (fun d =>
      match d with
      | .partition p => some p
      | _ => none)

/-- The host identifiers a job contributes: the seed exec_host when present
(the source inserts it again at the object relationship and at the Start
bootstrap, into the same set) and every present exec_host delta value. -/
def jobHosts (jb : JobInput) : List String :=
  (match jb.row0.exec_host with
   | some h => [h]
   | none => []) ++
  (deltasDiffs jb).filterMap (fun d =>
    match d with
    | .exec_host (some h) => some h
    | _ => none)

/-- The shared accounts HashSet at the end of the parallel phase, as a
duplicate-free list. -/
def allAccounts (jobs : List JobInput) : List String :=
  (jobs.flatMap jobAccounts).dedup

/-- The shared groups HashSet at the end of the parallel phase. -/
def allGroups (jobs : List JobInput) : List String :=
  (jobs.flatMap jobGroups).dedup

/-- The shared partitions HashSet at the end of the parallel phase. -/
def allPartitions (jobs : List JobInput) : List String :=
  (jobs.flatMap jobPartitions).dedup

/-- The shared execution-hosts HashSet at the end of the parallel phase. -/
def allHosts (jobs : List JobInput) : List String :=
  (jobs.flatMap jobHosts).dedup

/-- The assembled OCEL: objects and events (the type declarations of the
source carry no identifiers and are omitted). -/
structure OcelLog where
  objects : List Object
  events : List Event
  deriving DecidableEq, Repr

/-- The assembly phase of extract_ocel_from_slurm_diffs: per-job objects,
then per-job events flattened, then one prefixed object per collected
account, group, partition, and host, in that order. -/
def extract_ocel (jobs : List JobInput) : OcelLog :=
  { objects :=
      jobs.map (fun jb => (processJob jb).1) ++
      (allAccounts jobs).map (fun a =>
        { id := "acc_" ++ a, otype := "Account", attrs := [], rels := [] }) ++
      (allGroups jobs).map (fun a =>
        { id := "group_" ++ a, otype := "Group", attrs := [], rels := [] }) ++
      (allPartitions jobs).map (fun a =>
        { id := "part_" ++ a, otype := "Partition", attrs := [], rels := [] }) ++
      (allHosts jobs).map (fun a =>
        { id := "host_" ++ a, otype := "Host", attrs := [], rels := [] })
    events := jobs.flatMap (fun jb => (processJob jb).2) }

/-- The looping info stored in the tauri app state while a poll loop runs. -/
structure LoopInfo where
  secondInterval : Nat
  runningSince : Int
  path : String
  deriving DecidableEq, Repr

/-- The tauri-managed app state: the optional SSH client and the optional
looping info. -/
structure TauriState where
  client : Option Unit
  loopingInfo : Option LoopInfo
  deriving DecidableEq, Repr

/-- start_squeue_loop from app/src-tauri/src/lib.rs: with no folder picked
it errors; with a folder picked it unconditionally overwrites loopingInfo
and spawns one more loop task (spawnedLoops counts tasks spawned so far).
The current loopingInfo is never consulted. -/
def start_squeue_loop (pickedFolder : Option String) (loopingInterval : Nat)
    (now : Int) (st : TauriState) (spawnedLoops : Nat) :
    Except String String × TauriState × Nat :=
  match pickedFolder with
  | some base =>
    let path := base ++ "/squeue_results_" ++ toString now
    (.ok "Loop running in background",
     { st with loopingInfo := some ⟨loopingInterval, now, path⟩ },
     spawnedLoops + 1)
  | none => (.error "No folder path selected.", st, spawnedLoops)

/-- The iterations of the inter-round for loop in start_squeue_loop: each
iteration first reads the cancellation flag (loopingInfo taken away) and
breaks, else sleeps one second.  cancelled k is the flag observed at the
check after k one-second sleeps; the result is the number of one-second
sleeps performed and whether the break was taken. -/
def sleepLoop (cancelled : Nat → Bool) : Nat → Nat → Nat × Bool
  | 0, slept => (slept, false)
  | n + 1, slept =>
    if cancelled slept then (slept, true) else sleepLoop cancelled n (slept + 1)

/-- The inter-round gap of start_squeue_loop: the source iterates the range
from 1 up to but excluding loopingInterval, i.e. loopingInterval minus one
iterations (and none at all when the interval is zero or one). -/
def sleepPhase (loopingInterval : Nat) (cancelled : Nat → Bool) : Nat × Bool :=
  sleepLoop cancelled (loopingInterval - 1) 0

/-- A concrete SqueueRow used by witnesses and counterexamples. -/
def sampleRow : SqueueRow :=
  { account := "acct1", job_id := "1", exec_host := none, min_cpus := 1, cpus := 4, nodes := 1,
    end_time := none, dependency := none, features := "", array_job_id := "1", group := "grp1",
    step_job_id := ("1", none), time_limit := some 3600, time_left := some 100, name := "job1",
    min_memory := "4G", time := some 5, priority := 7, partition := "part1", state := .PENDING,
    reason := "None", start_time := none, submit_time := 10000, work_dir := "/w/d",
    command := "/bin/run" }

/-- A second concrete SqueueRow with the same job_id as sampleRow but other
diffable fields changed. -/
def sampleRow2 : SqueueRow :=
  { sampleRow with
    account := "acct2"
    priority := 9
    state := .RUNNING
    exec_host := some "n01"
    time := some 9
    time_left := some 42 }

/-- Characterization of the files one row contributes in a round (used to
state what processRows creates): a DELTA file for a known job with non-empty
diff, a full snapshot for an unknown job. -/
def rowFiles (t : String) (known : List (String × SqueueRow)) (row : SqueueRow) :
    List (List String) :=
  match lookupJob known row.job_id with
  | some prev =>
    if (diff prev row).isEmpty then []
    else [[row.job_id, "DELTA-" ++ t ++ ".json"]]
  | none => [[row.job_id, t ++ ".json"]]

/-- The id pieces of the state-change events emitted while replaying one
change sequence: one piece per state descriptor whose state maps to an
event. -/
def statePieces (ds : List RowDiff) : List String :=
  ds.filterMap (fun df =>
    match df with
    | .state s => (stateEventInfo s).map (fun pr => pr.1)
    | _ => none)

/-- The id pieces of all state-change events of a whole delta stream. -/
def emittedPieces (deltas : List (Int × List RowDiff)) : List String :=
  deltas.flatMap (fun d => statePieces d.2)

/-- An event id schema: a constant front part, the job id, a constant back
part. -/
structure IdSchema where
  pre : String
  suf : String
  deriving DecidableEq, Repr

/-- Build an event id from a schema and a job id. -/
def mkId (s : IdSchema) (j : String) : String :=
  s.pre ++ j ++ s.suf

/-- Every id schema the synthesizer can produce: the Submit schema, the two
Start schemas (delta path and bootstrap), and the seven state-change schemas
(whose front parts carry the underscore the source splices in). -/
def schemas : List IdSchema :=
  [⟨"submit-", "-0"⟩, ⟨"start-", "-0"⟩, ⟨"start-", "-1"⟩,
   ⟨"ending-_", "-0"⟩, ⟨"ended-_", "-0"⟩, ⟨"cancelled-_", "-0"⟩,
   ⟨"failed-_", "-0"⟩, ⟨"timeout-_", "-0"⟩, ⟨"oom-_", "-0"⟩,
   ⟨"node-fail-_", "-0"⟩]

/-- The event id type-front parts named by the spec. -/
def eventIdPieces : List String :=
  ["submit-", "start-", "ending-", "ended-", "cancelled-", "failed-",
   "timeout-", "oom-", "node-fail-"]

/-- A copy of sampleRow that differs only in the volatile fields time and
time_left. -/
def sampleRowV : SqueueRow :=
  { sampleRow with time := some 999, time_left := none }

/-- A tauri state in the Running regime: logged in, loop info present. -/
def runningState : TauriState := ⟨some (), some ⟨5, 0, "p"⟩⟩

/-- A concrete squeue line, split into its 25 fields, whose STEPJOBID field
holds two underscores. -/
def cexVals : List String :=
  ["acct", "77", "n/a", "1", "1", "1", "N/A", "(null)", "", "77", "grp", "1_2_3",
   "10:00", "5:00", "nm", "1G", "0:10", "99", "pt", "PENDING", "None", "N/A",
   "2025-01-04T00:50:00", "/w", "/bin/x"]

/-- The row that parse_from_strs produces from cexVals under the trivial
date and float parsers. -/
def cexParsedRow : SqueueRow :=
  { account := "acct", job_id := "77", exec_host := none, min_cpus := 1, cpus := 1,
    nodes := 1, end_time := none, dependency := none, features := "",
    array_job_id := "77", group := "grp", step_job_id := ("1", some "2"),
    time_limit := some 600, time_left := some 300, name := "nm", min_memory := "1G",
    time := some 10, priority := 0, partition := "pt", state := .PENDING,
    reason := "None", start_time := none, submit_time := 0, work_dir := "/w",
    command := "/bin/x" }

/-- The admissible ids of a buffered Start event for a job: the delta-path
form (index 0, the length of the still-empty global event list) or the
bootstrap form (index 1, the length of the local list after the Submit
push). -/
def startIdOk (jid : String) (oe : Option Event) : Prop :=
  ∀ e, oe = some e →
    e.id = "start-" ++ jid ++ "-" ++ Nat.repr 0 ∨
    e.id = "start-" ++ jid ++ "-" ++ Nat.repr 1

/-- A job input whose replay emits one state-change event. -/
def cexJob1 : JobInput := ⟨0, sampleRow, [(1, [.state .COMPLETED])]⟩

/-- The state-change event that cexJob1 emits. -/
def cexEvent : Event :=
  { id := "ended-_1-0", etype := "Job Completed", time := 1, rels := [("1", "job")] }

/-- A job input whose replay emits two Job Cancelled events. -/
def cexJob9 : JobInput :=
  ⟨0, sampleRow, [(1, [.state .CANCELLED]), (2, [.state .PENDING]), (3, [.state .CANCELLED])]⟩

/-! ## Theorems -/

/-- foldl of applyOne distributes over list append. -/
theorem applyList_append (r : SqueueRow) (l1 l2 : List RowDiff) :
    applyList r (l1 ++ l2) = applyList (applyList r l1) l2 :=
  List.foldl_append applyOne r l1 l2

/-- Applying a change that touches a different field leaves a projection
unchanged. -/
theorem proj_applyOne_ne (F : FieldTag) (d : RowDiff) (r : SqueueRow)
    (h : touches d ≠ F) : proj F (applyOne r d) = proj F r := by
  cases d <;> cases F <;> simp_all [touches, applyOne, proj]

/-- Effect of the account segment of the diff on an arbitrary projection. -/
theorem proj_dAccount (p c r : SqueueRow) (F : FieldTag) :
    proj F (applyList r (dAccount p c)) =
      if FieldTag.account = F then
        (if p.account = c.account then proj F r else proj F c)
      else proj F r := by
  by_cases hF : FieldTag.account = F
  · subst hF
    unfold dAccount
    split <;> simp_all [applyList, applyOne, proj]
  · rw [if_neg hF]
    unfold dAccount
    split
    · simp [applyList]
    · simpa [applyList] using
        proj_applyOne_ne F (.account c.account) r (by simpa [touches] using hF)

/-- Effect of the job_id segment of the diff on an arbitrary projection. -/
theorem proj_dJobId (p c r : SqueueRow) (F : FieldTag) :
    proj F (applyList r (dJobId p c)) =
      if FieldTag.job_id = F then
        (if p.job_id = c.job_id then proj F r else proj F c)
      else proj F r := by
  by_cases hF : FieldTag.job_id = F
  · subst hF
    unfold dJobId
    split <;> simp_all [applyList, applyOne, proj]
  · rw [if_neg hF]
    unfold dJobId
    split
    · simp [applyList]
    · simpa [applyList] using
        proj_applyOne_ne F (.job_id c.job_id) r (by simpa [touches] using hF)

/-- Effect of the exec_host segment of the diff on an arbitrary projection. -/
theorem proj_dExecHost (p c r : SqueueRow) (F : FieldTag) :
    proj F (applyList r (dExecHost p c)) =
      if FieldTag.exec_host = F then
        (if p.exec_host = c.exec_host then proj F r else proj F c)
      else proj F r := by
  by_cases hF : FieldTag.exec_host = F
  · subst hF
    unfold dExecHost
    split <;> simp_all [applyList, applyOne, proj]
  · rw [if_neg hF]
    unfold dExecHost
    split
    · simp [applyList]
    · simpa [applyList] using
        proj_applyOne_ne F (.exec_host c.exec_host) r (by simpa [touches] using hF)

/-- Effect of the min_cpus segment of the diff on an arbitrary projection. -/
theorem proj_dMinCpus (p c r : SqueueRow) (F : FieldTag) :
    proj F (applyList r (dMinCpus p c)) =
      if FieldTag.min_cpus = F then
        (if p.min_cpus = c.min_cpus then proj F r else proj F c)
      else proj F r := by
  by_cases hF : FieldTag.min_cpus = F
  · subst hF
    unfold dMinCpus
    split <;> simp_all [applyList, applyOne, proj]
  · rw [if_neg hF]
    unfold dMinCpus
    split
    · simp [applyList]
    · simpa [applyList] using
        proj_applyOne_ne F (.min_cpus c.min_cpus) r (by simpa [touches] using hF)

/-- Effect of the cpus segment of the diff on an arbitrary projection. -/
theorem proj_dCpus (p c r : SqueueRow) (F : FieldTag) :
    proj F (applyList r (dCpus p c)) =
      if FieldTag.cpus = F then
        (if p.cpus = c.cpus then proj F r else proj F c)
      else proj F r := by
  by_cases hF : FieldTag.cpus = F
  · subst hF
    unfold dCpus
    split <;> simp_all [applyList, applyOne, proj]
  · rw [if_neg hF]
    unfold dCpus
    split
    · simp [applyList]
    · simpa [applyList] using
        proj_applyOne_ne F (.cpus c.cpus) r (by simpa [touches] using hF)

/-- Effect of the nodes segment of the diff on an arbitrary projection. -/
theorem proj_dNodes (p c r : SqueueRow) (F : FieldTag) :
    proj F (applyList r (dNodes p c)) =
      if FieldTag.nodes = F then
        (if p.nodes = c.nodes then proj F r else proj F c)
      else proj F r := by
  by_cases hF : FieldTag.nodes = F
  · subst hF
    unfold dNodes
    split <;> simp_all [applyList, applyOne, proj]
  · rw [if_neg hF]
    unfold dNodes
    split
    · simp [applyList]
    · simpa [applyList] using
        proj_applyOne_ne F (.nodes c.nodes) r (by simpa [touches] using hF)

/-- Effect of the end_time segment of the diff on an arbitrary projection. -/
theorem proj_dEndTime (p c r : SqueueRow) (F : FieldTag) :
    proj F (applyList r (dEndTime p c)) =
      if FieldTag.end_time = F then
        (if p.end_time = c.end_time then proj F r else proj F c)
      else proj F r := by
  by_cases hF : FieldTag.end_time = F
  · subst hF
    unfold dEndTime
    split <;> simp_all [applyList, applyOne, proj]
  · rw [if_neg hF]
    unfold dEndTime
    split
    · simp [applyList]
    · simpa [applyList] using
        proj_applyOne_ne F (.end_time c.end_time) r (by simpa [touches] using hF)

/-- Effect of the dependency segment of the diff on an arbitrary projection. -/
theorem proj_dDependency (p c r : SqueueRow) (F : FieldTag) :
    proj F (applyList r (dDependency p c)) =
      if FieldTag.dependency = F then
        (if p.dependency = c.dependency then proj F r else proj F c)
      else proj F r := by
  by_cases hF : FieldTag.dependency = F
  · subst hF
    unfold dDependency
    split <;> simp_all [applyList, applyOne, proj]
  · rw [if_neg hF]
    unfold dDependency
    split
    · simp [applyList]
    · simpa [applyList] using
        proj_applyOne_ne F (.dependency c.dependency) r (by simpa [touches] using hF)

/-- Effect of the features segment of the diff on an arbitrary projection. -/
theorem proj_dFeatures (p c r : SqueueRow) (F : FieldTag) :
    proj F (applyList r (dFeatures p c)) =
      if FieldTag.features = F then
        (if p.features = c.features then proj F r else proj F c)
      else proj F r := by
  by_cases hF : FieldTag.features = F
  · subst hF
    unfold dFeatures
    split <;> simp_all [applyList, applyOne, proj]
  · rw [if_neg hF]
    unfold dFeatures
    split
    · simp [applyList]
    · simpa [applyList] using
        proj_applyOne_ne F (.features c.features) r (by simpa [touches] using hF)

/-- Effect of the array_job_id segment of the diff on an arbitrary projection. -/
theorem proj_dArrayJobId (p c r : SqueueRow) (F : FieldTag) :
    proj F (applyList r (dArrayJobId p c)) =
      if FieldTag.array_job_id = F then
        (if p.array_job_id = c.array_job_id then proj F r else proj F c)
      else proj F r := by
  by_cases hF : FieldTag.array_job_id = F
  · subst hF
    unfold dArrayJobId
    split <;> simp_all [applyList, applyOne, proj]
  · rw [if_neg hF]
    unfold dArrayJobId
    split
    · simp [applyList]
    · simpa [applyList] using
        proj_applyOne_ne F (.array_job_id c.array_job_id) r (by simpa [touches] using hF)

/-- Effect of the group segment of the diff on an arbitrary projection. -/
theorem proj_dGroup (p c r : SqueueRow) (F : FieldTag) :
    proj F (applyList r (dGroup p c)) =
      if FieldTag.group = F then
        (if p.group = c.group then proj F r else proj F c)
      else proj F r := by
  by_cases hF : FieldTag.group = F
  · subst hF
    unfold dGroup
    split <;> simp_all [applyList, applyOne, proj]
  · rw [if_neg hF]
    unfold dGroup
    split
    · simp [applyList]
    · simpa [applyList] using
        proj_applyOne_ne F (.group c.group) r (by simpa [touches] using hF)

/-- Effect of the step_job_id segment of the diff on an arbitrary projection. -/
theorem proj_dStepJobId (p c r : SqueueRow) (F : FieldTag) :
    proj F (applyList r (dStepJobId p c)) =
      if FieldTag.step_job_id = F then
        (if p.step_job_id = c.step_job_id then proj F r else proj F c)
      else proj F r := by
  by_cases hF : FieldTag.step_job_id = F
  · subst hF
    unfold dStepJobId
    split <;> simp_all [applyList, applyOne, proj]
  · rw [if_neg hF]
    unfold dStepJobId
    split
    · simp [applyList]
    · simpa [applyList] using
        proj_applyOne_ne F (.step_job_id c.step_job_id) r (by simpa [touches] using hF)

/-- Effect of the time_limit segment of the diff on an arbitrary projection. -/
theorem proj_dTimeLimit (p c r : SqueueRow) (F : FieldTag) :
    proj F (applyList r (dTimeLimit p c)) =
      if FieldTag.time_limit = F then
        (if p.time_limit = c.time_limit then proj F r else proj F c)
      else proj F r := by
  by_cases hF : FieldTag.time_limit = F
  · subst hF
    unfold dTimeLimit
    split <;> simp_all [applyList, applyOne, proj]
  · rw [if_neg hF]
    unfold dTimeLimit
    split
    · simp [applyList]
    · simpa [applyList] using
        proj_applyOne_ne F (.time_limit c.time_limit) r (by simpa [touches] using hF)

/-- Effect of the name segment of the diff on an arbitrary projection. -/
theorem proj_dName (p c r : SqueueRow) (F : FieldTag) :
    proj F (applyList r (dName p c)) =
      if FieldTag.name = F then
        (if p.name = c.name then proj F r else proj F c)
      else proj F r := by
  by_cases hF : FieldTag.name = F
  · subst hF
    unfold dName
    split <;> simp_all [applyList, applyOne, proj]
  · rw [if_neg hF]
    unfold dName
    split
    · simp [applyList]
    · simpa [applyList] using
        proj_applyOne_ne F (.name c.name) r (by simpa [touches] using hF)

/-- Effect of the min_memory segment of the diff on an arbitrary projection. -/
theorem proj_dMinMemory (p c r : SqueueRow) (F : FieldTag) :
    proj F (applyList r (dMinMemory p c)) =
      if FieldTag.min_memory = F then
        (if p.min_memory = c.min_memory then proj F r else proj F c)
      else proj F r := by
  by_cases hF : FieldTag.min_memory = F
  · subst hF
    unfold dMinMemory
    split <;> simp_all [applyList, applyOne, proj]
  · rw [if_neg hF]
    unfold dMinMemory
    split
    · simp [applyList]
    · simpa [applyList] using
        proj_applyOne_ne F (.min_memory c.min_memory) r (by simpa [touches] using hF)

/-- Effect of the priority segment of the diff on an arbitrary projection. -/
theorem proj_dPriority (p c r : SqueueRow) (F : FieldTag) :
    proj F (applyList r (dPriority p c)) =
      if FieldTag.priority = F then
        (if p.priority = c.priority then proj F r else proj F c)
      else proj F r := by
  by_cases hF : FieldTag.priority = F
  · subst hF
    unfold dPriority
    split <;> simp_all [applyList, applyOne, proj]
  · rw [if_neg hF]
    unfold dPriority
    split
    · simp [applyList]
    · simpa [applyList] using
        proj_applyOne_ne F (.priority c.priority) r (by simpa [touches] using hF)

/-- Effect of the partition segment of the diff on an arbitrary projection. -/
theorem proj_dPartition (p c r : SqueueRow) (F : FieldTag) :
    proj F (applyList r (dPartition p c)) =
      if FieldTag.partition = F then
        (if p.partition = c.partition then proj F r else proj F c)
      else proj F r := by
  by_cases hF : FieldTag.partition = F
  · subst hF
    unfold dPartition
    split <;> simp_all [applyList, applyOne, proj]
  · rw [if_neg hF]
    unfold dPartition
    split
    · simp [applyList]
    · simpa [applyList] using
        proj_applyOne_ne F (.partition c.partition) r (by simpa [touches] using hF)

/-- Effect of the state segment of the diff on an arbitrary projection. -/
theorem proj_dState (p c r : SqueueRow) (F : FieldTag) :
    proj F (applyList r (dState p c)) =
      if FieldTag.state = F then
        (if p.state = c.state then proj F r else proj F c)
      else proj F r := by
  by_cases hF : FieldTag.state = F
  · subst hF
    unfold dState
    split <;> simp_all [applyList, applyOne, proj]
  · rw [if_neg hF]
    unfold dState
    split
    · simp [applyList]
    · simpa [applyList] using
        proj_applyOne_ne F (.state c.state) r (by simpa [touches] using hF)

/-- Effect of the reason segment of the diff on an arbitrary projection. -/
theorem proj_dReason (p c r : SqueueRow) (F : FieldTag) :
    proj F (applyList r (dReason p c)) =
      if FieldTag.reason = F then
        (if p.reason = c.reason then proj F r else proj F c)
      else proj F r := by
  by_cases hF : FieldTag.reason = F
  · subst hF
    unfold dReason
    split <;> simp_all [applyList, applyOne, proj]
  · rw [if_neg hF]
    unfold dReason
    split
    · simp [applyList]
    · simpa [applyList] using
        proj_applyOne_ne F (.reason c.reason) r (by simpa [touches] using hF)

/-- Effect of the start_time segment of the diff on an arbitrary projection. -/
theorem proj_dStartTime (p c r : SqueueRow) (F : FieldTag) :
    proj F (applyList r (dStartTime p c)) =
      if FieldTag.start_time = F then
        (if p.start_time = c.start_time then proj F r else proj F c)
      else proj F r := by
  by_cases hF : FieldTag.start_time = F
  · subst hF
    unfold dStartTime
    split <;> simp_all [applyList, applyOne, proj]
  · rw [if_neg hF]
    unfold dStartTime
    split
    · simp [applyList]
    · simpa [applyList] using
        proj_applyOne_ne F (.start_time c.start_time) r (by simpa [touches] using hF)

/-- Effect of the submit_time segment of the diff on an arbitrary projection. -/
theorem proj_dSubmitTime (p c r : SqueueRow) (F : FieldTag) :
    proj F (applyList r (dSubmitTime p c)) =
      if FieldTag.submit_time = F then
        (if p.submit_time = c.submit_time then proj F r else proj F c)
      else proj F r := by
  by_cases hF : FieldTag.submit_time = F
  · subst hF
    unfold dSubmitTime
    split <;> simp_all [applyList, applyOne, proj]
  · rw [if_neg hF]
    unfold dSubmitTime
    split
    · simp [applyList]
    · simpa [applyList] using
        proj_applyOne_ne F (.submit_time c.submit_time) r (by simpa [touches] using hF)

/-- Effect of the work_dir segment of the diff on an arbitrary projection. -/
theorem proj_dWorkDir (p c r : SqueueRow) (F : FieldTag) :
    proj F (applyList r (dWorkDir p c)) =
      if FieldTag.work_dir = F then
        (if p.work_dir = c.work_dir then proj F r else proj F c)
      else proj F r := by
  by_cases hF : FieldTag.work_dir = F
  · subst hF
    unfold dWorkDir
    split <;> simp_all [applyList, applyOne, proj]
  · rw [if_neg hF]
    unfold dWorkDir
    split
    · simp [applyList]
    · simpa [applyList] using
        proj_applyOne_ne F (.work_dir c.work_dir) r (by simpa [touches] using hF)

/-- Effect of the command segment of the diff on an arbitrary projection. -/
theorem proj_dCommand (p c r : SqueueRow) (F : FieldTag) :
    proj F (applyList r (dCommand p c)) =
      if FieldTag.command = F then
        (if p.command = c.command then proj F r else proj F c)
      else proj F r := by
  by_cases hF : FieldTag.command = F
  · subst hF
    unfold dCommand
    split <;> simp_all [applyList, applyOne, proj]
  · rw [if_neg hF]
    unfold dCommand
    split
    · simp [applyList]
    · simpa [applyList] using
        proj_applyOne_ne F (.command c.command) r (by simpa [touches] using hF)


/-- Replaying the diff of p and c on p reproduces every diffable field of c. -/
theorem diff_proj (p c : SqueueRow) (F : FieldTag) :
    proj F (applyList p (diff p c)) = proj F c := by
  cases F <;>
  · simp only [diff, applyList_append, proj_dAccount, proj_dJobId, proj_dExecHost,
      proj_dMinCpus, proj_dCpus, proj_dNodes, proj_dEndTime, proj_dDependency,
      proj_dFeatures, proj_dArrayJobId, proj_dGroup, proj_dStepJobId, proj_dTimeLimit,
      proj_dName, proj_dMinMemory, proj_dPriority, proj_dPartition, proj_dState,
      proj_dReason, proj_dStartTime, proj_dSubmitTime, proj_dWorkDir, proj_dCommand,
      reduceCtorEq, reduceIte]
    split <;> simp_all [proj]

/-- A pair of rows that agree on every diffable field has an empty diff. -/
theorem diff_eq_nil (p c : SqueueRow) (h : diffableEq p c) : diff p c = [] := by
  obtain ⟨h1, h2, h3, h4, h5, h6, h7, h8, h9, h10, h11, h12, h13, h14, h15, h16,
    h17, h18, h19, h20, h21, h22, h23⟩ := h
  simp [diff, dAccount, dJobId, dExecHost, dMinCpus, dCpus, dNodes, dEndTime,
    dDependency, dFeatures, dArrayJobId, dGroup, dStepJobId, dTimeLimit, dName,
    dMinMemory, dPriority, dPartition, dState, dReason, dStartTime, dSubmitTime,
    dWorkDir, dCommand, h1, h2, h3, h4, h5, h6, h7, h8, h9, h10, h11, h12, h13,
    h14, h15, h16, h17, h18, h19, h20, h21, h22, h23]

/-- C4: for every pair of JobRecords p and c with the same job_id, applying
the delta sequence diff(p,c) to p yields a record equal to c on every
diffable field (every field except time and time_left). -/
theorem delta_soundness (p c : SqueueRow) (_hid : p.job_id = c.job_id) :
    diffableEq (applyList p (diff p c)) c := by
  unfold diffableEq
  refine ⟨?_, ?_, ?_, ?_, ?_, ?_, ?_, ?_, ?_, ?_, ?_, ?_, ?_, ?_, ?_, ?_, ?_, ?_, ?_, ?_, ?_, ?_, ?_⟩
  · simpa [proj] using diff_proj p c .account
  · simpa [proj] using diff_proj p c .job_id
  · simpa [proj] using diff_proj p c .exec_host
  · simpa [proj] using diff_proj p c .min_cpus
  · simpa [proj] using diff_proj p c .cpus
  · simpa [proj] using diff_proj p c .nodes
  · simpa [proj] using diff_proj p c .end_time
  · simpa [proj] using diff_proj p c .dependency
  · simpa [proj] using diff_proj p c .features
  · simpa [proj] using diff_proj p c .array_job_id
  · simpa [proj] using diff_proj p c .group
  · simpa [proj] using diff_proj p c .step_job_id
  · simpa [proj] using diff_proj p c .time_limit
  · simpa [proj] using diff_proj p c .name
  · simpa [proj] using diff_proj p c .min_memory
  · simpa [proj] using diff_proj p c .priority
  · simpa [proj] using diff_proj p c .partition
  · simpa [proj] using diff_proj p c .state
  · simpa [proj] using diff_proj p c .reason
  · simpa [proj] using diff_proj p c .start_time
  · simpa [proj] using diff_proj p c .submit_time
  · simpa [proj] using diff_proj p c .work_dir
  · simpa [proj] using diff_proj p c .command

/-- Witness for delta_soundness at two concrete rows sharing a job id. -/
theorem delta_soundness_witness :
    sampleRow.job_id = sampleRow2.job_id ∧
      diffableEq (applyList sampleRow (diff sampleRow sampleRow2)) sampleRow2 :=
  ⟨rfl, delta_soundness sampleRow sampleRow2 rfl⟩

/-- Under always-succeeding create and directory oracles, processRows never
aborts, and the files it creates are exactly the per-row files. -/
theorem processRows_allOk (writeOk : List String → Bool) (t : String)
    (known : List (String × SqueueRow)) (allIds : List String) :
    ∀ rows, ∃ lg, processRows allOk allOk writeOk t known allIds rows =
      .ok (rows.flatMap (rowFiles t known), lg) := by
  intro rows
  induction rows with
  | nil => exact ⟨[], rfl⟩
  | cons row rest ih =>
    obtain ⟨lg2, h2⟩ := ih
    cases hl : lookupJob known row.job_id with
    | some prev =>
      by_cases hd : (diff prev row).isEmpty
      · refine ⟨lg2, ?_⟩
        simp [processRows, hl, hd, h2, allOk, rowFiles, Bind.bind, Except.bind]
      · refine ⟨(if writeOk [row.job_id, "DELTA-" ++ t ++ ".json"] then []
          else ["Failed to create file for " ++ row.job_id]) ++ lg2, ?_⟩
        simp [processRows, hl, hd, h2, allOk, rowFiles, Bind.bind, Except.bind]
    | none =>
      refine ⟨((if row.job_id ∈ allIds then ["Job re-appeared! Maybe IDs get reused?"] else []) ++
        (if writeOk [row.job_id, t ++ ".json"] then []
          else ["Failed to create file for " ++ row.job_id])) ++ lg2, ?_⟩
      simp [processRows, hl, h2, allOk, rowFiles, Bind.bind, Except.bind]

/-- Under always-succeeding create and directory oracles, a round returns ok
with the id-set file followed by the per-row files. -/
theorem runRound_allOk (writeOk : List String → Bool) (t : String)
    (rows : List SqueueRow) (known : List (String × SqueueRow))
    (allIds : List String) :
    ∃ lg, runRound allOk allOk writeOk t rows known allIds =
      .ok { known := rows.map (fun r => (r.job_id, r))
            allIds := allIds ++ ((rows.map (fun r => r.job_id)).dedup).filter
              (fun j => !(allIds.contains j))
            files := [t ++ ".json"] :: rows.flatMap (rowFiles t known)
            log := (if writeOk [t ++ ".json"] then []
              else ["Failed to create file for all jobs ids"]) ++ lg } := by
  obtain ⟨lg, hp⟩ := processRows_allOk writeOk t known allIds rows
  exact ⟨lg, by simp [runRound, allOk, hp]⟩

/-- C3: if p equals c on every diffable field then diff(p,c) is empty, and a
round in which every row carrying that job id is c, with p remembered for
that id, creates no DELTA file for the job. -/
theorem delta_emptiness (p c : SqueueRow) (h : diffableEq p c) :
    diff p c = [] ∧
    ∀ (t : String) (rows : List SqueueRow) (known : List (String × SqueueRow))
      (allIds : List String) (out : RoundOutcome),
      (∀ r ∈ rows, r.job_id = c.job_id → r = c) →
      lookupJob known c.job_id = some p →
      runRound allOk allOk allOk t rows known allIds = .ok out →
      ∀ f ∈ out.files, f ≠ [c.job_id, "DELTA-" ++ t ++ ".json"] := by
  have hnil := diff_eq_nil p c h
  refine ⟨hnil, ?_⟩
  intro t rows known allIds out hrows hlook hrun f hf hcontra
  obtain ⟨lg, hr⟩ := runRound_allOk allOk t rows known allIds
  rw [hrun] at hr
  have hfiles : out.files = [t ++ ".json"] :: rows.flatMap (rowFiles t known) := by
    cases hr
    rfl
  rw [hfiles] at hf
  rcases List.mem_cons.mp hf with h1 | h1
  · rw [hcontra] at h1
    have := congrArg List.length h1
    simp at this
  · obtain ⟨r, hrmem, hrf⟩ := List.mem_flatMap.mp h1
    rw [hcontra] at hrf
    unfold rowFiles at hrf
    cases hl : lookupJob known r.job_id with
    | some prev =>
      rw [hl] at hrf
      by_cases hd : (diff prev r).isEmpty
      · simp [hd] at hrf
      · simp [hd] at hrf
        have hid : r.job_id = c.job_id := hrf.symm
        have hrc : r = c := hrows r hrmem hid
        rw [hid] at hl
        rw [hlook] at hl
        have hpc : prev = p := by cases hl; rfl
        rw [hrc, hpc, hnil] at hd
        simp at hd
    | none =>
      rw [hl] at hrf
      simp at hrf
      have hsec : "DELTA-" ++ t ++ ".json" = t ++ ".json" := hrf.2
      have hlen := congrArg String.length hsec
      have e1 : (".json" : String).length = 5 := rfl
      have e2 : ("DELTA-" : String).length = 6 := rfl
      simp [String.length_append, e1, e2] at hlen

/-- Witness for delta_emptiness: a volatile-only change at concrete rows. -/
theorem delta_emptiness_witness :
    diffableEq sampleRow sampleRowV ∧
      (diff sampleRow sampleRowV = [] ∧
       ∀ (t : String) (rows : List SqueueRow) (known : List (String × SqueueRow))
         (allIds : List String) (out : RoundOutcome),
         (∀ r ∈ rows, r.job_id = sampleRowV.job_id → r = sampleRowV) →
         lookupJob known sampleRowV.job_id = some sampleRow →
         runRound allOk allOk allOk t rows known allIds = .ok out →
         ∀ f ∈ out.files, f ≠ [sampleRowV.job_id, "DELTA-" ++ t ++ ".json"]) :=
  ⟨by decide, delta_emptiness sampleRow sampleRowV (by decide)⟩

/-- C7 counterexample: with a failing File::create, the source unwraps and
panics, so the round aborts instead of logging and continuing. -/
theorem squeue_round_create_abort :
    runRound (fun _ => false) allOk allOk "T" [] [] [] =
      .error "panic: File::create failed for the all-ids file" ∧
    ∀ out : RoundOutcome,
      runRound (fun _ => false) allOk allOk "T" [] [] [] ≠ .ok out :=
  ⟨rfl, fun _ h => by simp [runRound, allOk] at h⟩

/-- C7 amended: serde write failures are only logged and the file is
skipped, and the round then always completes; but a File::create or
create_dir_all failure panics and aborts the round.  With all creates
succeeding, the round returns ok for every write oracle and still installs
the new known-jobs map. -/
theorem squeue_round_write_errors_skipped (writeOk : List String → Bool)
    (t : String) (rows : List SqueueRow) (known : List (String × SqueueRow))
    (allIds : List String) :
    ∃ out, runRound allOk allOk writeOk t rows known allIds = .ok out ∧
      out.known = rows.map (fun r => (r.job_id, r)) := by
  obtain ⟨lg, hr⟩ := runRound_allOk writeOk t rows known allIds
  exact ⟨_, hr, rfl⟩

/-- snapshotFileCount distributes over file-list concatenation. -/
theorem snapshotFileCount_append (j : String) (a b : List (List String)) :
    snapshotFileCount j (a ++ b) = snapshotFileCount j a + snapshotFileCount j b := by
  simp [snapshotFileCount, List.filter_append]

/-- A list is a prefix of itself followed by anything. -/
theorem isPrefixOf_self_append (p x : List Char) : p.isPrefixOf (p ++ x) = true := by
  simp [List.isPrefixOf_iff_prefix]

/-- A DELTA file name carries the DELTA- front. -/
theorem delta_name_pre (t : String) :
    ("DELTA-".data).isPrefixOf (("DELTA-" ++ t ++ ".json").data) = true := by
  have hd : ("DELTA-" ++ t ++ ".json").data = "DELTA-".data ++ (t.data ++ ".json".data) := by
    simp [String.data_append, List.append_assoc]
  rw [hd]
  exact isPrefixOf_self_append _ _

/-- Snapshot count of the files of one row. -/
theorem snapshotFileCount_rowFiles (j t : String) (known : List (String × SqueueRow))
    (row : SqueueRow)
    (ht : ("DELTA-".data).isPrefixOf ((t ++ ".json").data) = false) :
    snapshotFileCount j (rowFiles t known row) =
      if row.job_id == j && (lookupJob known row.job_id).isNone then 1 else 0 := by
  have ht2 : (['D', 'E', 'L', 'T', 'A', '-'] : List Char).isPrefixOf
      (t.data ++ ['.', 'j', 's', 'o', 'n']) = false := by simpa using ht
  unfold rowFiles
  cases hl : lookupJob known row.job_id with
  | some prev =>
    by_cases hd : (diff prev row).isEmpty
    · simp [hd, snapshotFileCount]
    · simp [hd, snapshotFileCount, delta_name_pre]
  | none =>
    by_cases hj : (row.job_id == j) = true
    · simp [snapshotFileCount, hj, ht2]
    · simp [snapshotFileCount, hj]

/-- Snapshot count of the files of a whole round body. -/
theorem snapshotFileCount_flatMap (j t : String) (known : List (String × SqueueRow))
    (rows : List SqueueRow)
    (ht : ("DELTA-".data).isPrefixOf ((t ++ ".json").data) = false) :
    snapshotFileCount j (rows.flatMap (rowFiles t known)) =
      (rows.filter (fun r => r.job_id == j && (lookupJob known r.job_id).isNone)).length := by
  induction rows with
  | nil => simp [snapshotFileCount]
  | cons row rest ih =>
    rw [List.flatMap_cons, snapshotFileCount_append, ih,
      snapshotFileCount_rowFiles j t known row ht, List.filter_cons]
    by_cases hc : (row.job_id == j && (lookupJob known row.job_id).isNone) = true
    · simp [hc, Nat.add_comm]
    · simp [hc]

/-- With duplicate-free job ids in a round, a job contributes at most one
snapshot, exactly when it is present and unknown. -/
theorem filter_job_count (rows : List SqueueRow) (j : String)
    (known : List (String × SqueueRow))
    (hnd : (rows.map (fun r => r.job_id)).Nodup) :
    (rows.filter (fun r => r.job_id == j && (lookupJob known r.job_id).isNone)).length =
      if rows.any (fun r => r.job_id == j) && (lookupJob known j).isNone then 1 else 0 := by
  induction rows with
  | nil => simp
  | cons row rest ih =>
    have hnd2 : (rest.map (fun r => r.job_id)).Nodup := (List.nodup_cons.mp hnd).2
    have hnm : row.job_id ∉ rest.map (fun r => r.job_id) := (List.nodup_cons.mp hnd).1
    by_cases hj : row.job_id = j
    · have hrest : rest.filter (fun r => r.job_id == j && (lookupJob known r.job_id).isNone) = [] := by
        apply List.filter_eq_nil_iff.mpr
        intro r hr
        have hne : r.job_id ≠ j := by
          intro he
          exact hnm (by rw [hj, ← he]; exact List.mem_map_of_mem _ hr)
        simp [hne]
      have hb : (row.job_id == j) = true := by simp [hj]
      by_cases hk : (lookupJob known j).isNone
      · simp [List.filter_cons, List.any_cons, hb, hrest, hj, hk]
      · simp [List.filter_cons, List.any_cons, hb, hrest, hj, hk]
    · have hb : (row.job_id == j) = false := by simp [hj]
      simp [List.filter_cons, List.any_cons, hb, ih hnd2]

/-- The known-jobs map installed by a round knows exactly the round ids. -/
theorem lookup_map_rows (rows : List SqueueRow) (j : String) :
    (lookupJob (rows.map (fun r => (r.job_id, r))) j).isSome =
      rows.any (fun r => r.job_id == j) := by
  induction rows with
  | nil => simp [lookupJob]
  | cons row rest ih =>
    by_cases hj : (row.job_id == j) = true
    · simp [lookupJob, List.find?_cons, hj]
    · simp only [List.map_cons, lookupJob, List.find?_cons, hj, List.any_cons]
      simpa [lookupJob] using ih

/-- Snapshot counting across a run of rounds, relative to an arbitrary
starting state. -/
theorem runRounds_snapshot (j : String) :
    ∀ (rounds : List (String × List SqueueRow)) (st : ArchState),
      (∀ tr ∈ rounds, ("DELTA-".data).isPrefixOf ((tr.1 ++ ".json").data) = false) →
      (∀ tr ∈ rounds, ((tr.2.map (fun r => r.job_id)).Nodup)) →
      snapshotFileCount j (runRounds rounds st).files =
        snapshotFileCount j st.files +
          onsetCount j (lookupJob st.known j).isSome rounds := by
  intro rounds
  induction rounds with
  | nil => intro st _ _; simp [runRounds, onsetCount]
  | cons tr rest ih =>
    intro st ht hnd
    obtain ⟨t, rows⟩ := tr
    obtain ⟨lg, hr⟩ := runRound_allOk allOk t rows st.known st.allIds
    have ht1 := ht (t, rows) (List.mem_cons_self _ _)
    have hnd1 := hnd (t, rows) (List.mem_cons_self _ _)
    rw [show runRounds ((t, rows) :: rest) st =
      runRounds rest ⟨rows.map (fun r => (r.job_id, r)),
        st.allIds ++ ((rows.map (fun r => r.job_id)).dedup).filter
          (fun i => !(st.allIds.contains i)),
        st.files ++ ([t ++ ".json"] :: rows.flatMap (rowFiles t st.known))⟩ by
      simp [runRounds, hr]]
    rw [ih _ (fun x hx => ht x (List.mem_cons_of_mem _ hx))
      (fun x hx => hnd x (List.mem_cons_of_mem _ hx))]
    have hidf : snapshotFileCount j [[t ++ ".json"]] = 0 := by
      simp [snapshotFileCount]
    rw [show (st.files ++ ([t ++ ".json"] :: rows.flatMap (rowFiles t st.known)))
        = st.files ++ ([[t ++ ".json"]] ++ rows.flatMap (rowFiles t st.known)) by simp]
    rw [snapshotFileCount_append, snapshotFileCount_append, hidf,
      snapshotFileCount_flatMap j t st.known rows ht1,
      filter_job_count rows j st.known hnd1, lookup_map_rows rows j]
    rw [show onsetCount j (lookupJob st.known j).isSome ((t, rows) :: rest)
        = (if rows.any (fun r => r.job_id == j) && !(lookupJob st.known j).isSome then 1 else 0)
            + onsetCount j (rows.any (fun r => r.job_id == j)) rest from rfl]
    have hopt : (lookupJob st.known j).isNone = !(lookupJob st.known j).isSome := by
      cases lookupJob st.known j <;> rfl
    rw [hopt]
    omega

/-- C2: the duration parser contradicts the format days-hours:minutes:seconds
documented in the source: in the H:M:S branch the seconds variable is parsed
from the minutes field and index 2 is never read, so 1:2:3 yields 3722
seconds where H*3600+M*60+S is 3723. -/
theorem parse_duration_hms_bug :
    parse_slurm_duration "1:2:3" = some 3722 ∧
      (3722 : Nat) ≠ 1 * 3600 + 2 * 60 + 3 :=
  ⟨by decide, by decide⟩

/-- C10 counterexample: a job that appears, disappears for a round, and
appears again gets a second full snapshot in its subdirectory, so the
directory does not contain exactly one non-DELTA file. -/
theorem archive_reappear_counterexample :
    snapshotFileCount "1"
      (runRounds [("t1", [sampleRow]), ("t2", []), ("t3", [sampleRow])] emptyArch).files = 2 ∧
      (2 : Nat) ≠ 1 :=
  ⟨by decide, by decide⟩

/-- C10 amended: starting from an empty archive, a job subdirectory gets
exactly one full snapshot per onset, i.e. per round in which the job is
present after being absent from the previous round; a job that disappears
and reappears therefore gets one full snapshot per reappearance, not one
overall.  Round timestamps are assumed pairwise distinct (so file names do
not collide), not of DELTA- shape, and round job ids duplicate-free. -/
theorem archive_one_snapshot_per_onset (rounds : List (String × List SqueueRow)) (j : String)
    (_htimes : (rounds.map (fun tr => tr.1)).Nodup)
    (ht : ∀ tr ∈ rounds, ("DELTA-".data).isPrefixOf ((tr.1 ++ ".json").data) = false)
    (hnd : ∀ tr ∈ rounds, ((tr.2.map (fun r => r.job_id)).Nodup)) :
    snapshotFileCount j (runRounds rounds emptyArch).files = onsetCount j false rounds := by
  have h := runRounds_snapshot j rounds emptyArch ht hnd
  simpa [emptyArch, snapshotFileCount, lookupJob] using h

/-- Witness for archive_one_snapshot_per_onset on a concrete round list. -/
theorem archive_one_snapshot_per_onset_witness :
    ((([("t1", [sampleRow]), ("t2", [])] : List (String × List SqueueRow)).map
        (fun tr => tr.1)).Nodup ∧
     (∀ tr ∈ ([("t1", [sampleRow]), ("t2", [])] : List (String × List SqueueRow)),
        ("DELTA-".data).isPrefixOf ((tr.1 ++ ".json").data) = false) ∧
     (∀ tr ∈ ([("t1", [sampleRow]), ("t2", [])] : List (String × List SqueueRow)),
        ((tr.2.map (fun r => r.job_id)).Nodup))) ∧
    snapshotFileCount "1"
        (runRounds [("t1", [sampleRow]), ("t2", [])] emptyArch).files =
      onsetCount "1" false [("t1", [sampleRow]), ("t2", [])] :=
  ⟨⟨by decide, by decide, by decide⟩,
   archive_one_snapshot_per_onset [("t1", [sampleRow]), ("t2", [])] "1"
     (by decide) (by decide) (by decide)⟩

/-- C5 counterexample: invoking start while a loop is Running is not
rejected: it returns ok, overwrites the stored loop info, and spawns one
more loop task. -/
theorem start_loop_counterexample :
    runningState.loopingInfo = some ⟨5, 0, "p"⟩ ∧
    (start_squeue_loop (some "f") 7 1 runningState 1).1 = .ok "Loop running in background" ∧
    (start_squeue_loop (some "f") 7 1 runningState 1).2.2 = 2 ∧
    (start_squeue_loop (some "f") 7 1 runningState 1).2.1.loopingInfo =
      some ⟨7, 1, "f/squeue_results_1"⟩ := by
  refine ⟨rfl, rfl, rfl, ?_⟩
  decide

/-- C5 amended: start_squeue_loop never consults the running state.  With a
folder picked it succeeds, replaces loopingInfo and spawns an additional
loop task even while a loop is Running; it errors only when no folder is
picked. -/
theorem start_loop_no_reject (st : TauriState) (base : String) (interval : Nat)
    (now : Int) (spawned : Nat) (l : LoopInfo) (_hrun : st.loopingInfo = some l) :
    (start_squeue_loop (some base) interval now st spawned).1 =
        .ok "Loop running in background" ∧
      (start_squeue_loop (some base) interval now st spawned).2.2 = spawned + 1 ∧
      (start_squeue_loop (some base) interval now st spawned).2.1.loopingInfo =
        some ⟨interval, now, base ++ "/squeue_results_" ++ toString now⟩ :=
  ⟨rfl, rfl, rfl⟩

/-- Witness for start_loop_no_reject at the concrete Running state. -/
theorem start_loop_no_reject_witness :
    runningState.loopingInfo = some ⟨5, 0, "p"⟩ ∧
      ((start_squeue_loop (some "f") 7 1 runningState 1).1 =
          .ok "Loop running in background" ∧
        (start_squeue_loop (some "f") 7 1 runningState 1).2.2 = 1 + 1 ∧
        (start_squeue_loop (some "f") 7 1 runningState 1).2.1.loopingInfo =
          some ⟨7, 1, "f" ++ "/squeue_results_" ++ toString (1 : Int)⟩) :=
  ⟨rfl, start_loop_no_reject runningState "f" 7 1 1 ⟨5, 0, "p"⟩ rfl⟩

/-- With the cancellation flag never set, the sleep loop performs one sleep
per iteration. -/
theorem sleepLoop_no_cancel (cancelled : Nat → Bool)
    (h : ∀ k, cancelled k = false) :
    ∀ n s, sleepLoop cancelled n s = (s + n, false) := by
  intro n
  induction n with
  | zero => intro s; simp [sleepLoop]
  | succ m ih =>
    intro s
    simp [sleepLoop, h s, ih (s + 1)]
    omega

/-- The sleep loop stops at the first check that observes cancellation. -/
theorem sleepLoop_cancel (cancelled : Nat → Bool) :
    ∀ n s j, s ≤ j → j < s + n → (∀ k, s ≤ k → k < j → cancelled k = false) →
      cancelled j = true → sleepLoop cancelled n s = (j, true) := by
  intro n
  induction n with
  | zero => intro s j h1 h2 _ _; omega
  | succ m ih =>
    intro s j h1 h2 hbefore hj
    by_cases hs : s = j
    · subst hs; simp [sleepLoop, hj]
    · have hlt : s < j := lt_of_le_of_ne h1 hs
      have hcs : cancelled s = false := hbefore s le_rfl hlt
      simp [sleepLoop, hcs]
      exact ih (s + 1) j hlt (by omega)
        (fun k hk1 hk2 => hbefore k (by omega) hk2) hj

/-- C6 counterexample: with interval 2 and no cancellation, the inter-round
gap performs one one-second sleep, not two: the source iterates the range
from 1 up to but excluding the interval. -/
theorem sleep_counterexample :
    sleepPhase 2 (fun _ => false) = (1, false) ∧ (1 : Nat) ≠ 2 :=
  ⟨rfl, by decide⟩

/-- C6 amended: between rounds the loop sleeps interval-minus-one seconds as
that many one-second sleeps, checking the cancellation flag before each
sleep; a cancellation first observable at check j below the sleep count
stops the phase after exactly j sleeps.  In particular with interval at most
one there are no sleeps and no checks at all. -/
theorem sleep_phase_spec (loopingInterval : Nat) (cancelled : Nat → Bool) :
    ((∀ k, cancelled k = false) →
      sleepPhase loopingInterval cancelled = (loopingInterval - 1, false)) ∧
    (∀ j, j < loopingInterval - 1 → (∀ k, k < j → cancelled k = false) →
      cancelled j = true → sleepPhase loopingInterval cancelled = (j, true)) := by
  constructor
  · intro h
    simpa [sleepPhase] using sleepLoop_no_cancel cancelled h (loopingInterval - 1) 0
  · intro j hj hb hc
    simpa [sleepPhase] using
      sleepLoop_cancel cancelled (loopingInterval - 1) 0 j (Nat.zero_le j)
        (by omega) (fun k _ hk => hb k hk) hc

/-- Witness for sleep_phase_spec: interval 5, cancellation raised at the
third check. -/
theorem sleep_phase_spec_witness :
    (2 < 5 - 1 ∧ (∀ k, k < 2 → (fun k : Nat => k == 2) k = false) ∧
      ((fun k : Nat => k == 2) 2 = true)) ∧
    sleepPhase 5 (fun k : Nat => k == 2) = (2, true) :=
  ⟨⟨by decide, by decide, by decide⟩,
   (sleep_phase_spec 5 (fun k : Nat => k == 2)).2 2 (by decide) (by decide) (by decide)⟩

/-- Closed form of splitChars: the first piece is the run before the first
separator, and the remaining pieces are the split of what follows it. -/
theorem splitChars_eq (sep : Char) (l : List Char) :
    splitChars sep l =
      (l.takeWhile (fun c => !(c == sep))) ::
        (if l.any (fun c => c == sep) then
          splitChars sep ((l.dropWhile (fun c => !(c == sep))).tail)
        else []) := by
  induction l with
  | nil => simp [splitChars]
  | cons c rest ih =>
    by_cases hc : c = sep
    · subst hc
      simp [splitChars, List.takeWhile_cons, List.dropWhile_cons, List.any_cons]
    · rw [show splitChars sep (c :: rest) =
        (match splitChars sep rest with
         | s :: ss => (c :: s) :: ss
         | [] => [[c]]) from by simp [splitChars, hc]]
      rw [ih]
      simp [List.takeWhile_cons, List.dropWhile_cons, List.any_cons, hc]

/-- Closed form of the step_job_id computation: the first component is the
text before the first underscore; the second is present exactly when an
underscore occurs and is the text strictly between the first underscore and
the next one (or the rest when there is no further underscore) — not the
entire remainder. -/
theorem stepJobIdOf_spec (s : String) :
    stepJobIdOf s =
      (⟨s.data.takeWhile (fun c => !(c == '_'))⟩,
        if s.data.any (fun c => c == '_') then
          some ⟨((s.data.dropWhile (fun c => !(c == '_'))).tail).takeWhile
            (fun c => !(c == '_'))⟩
        else none) := by
  unfold stepJobIdOf
  rw [splitChars_eq]
  by_cases ha : s.data.any (fun c => c == '_')
  · rw [if_pos ha, if_pos ha, splitChars_eq]
    simp
  · rw [if_neg ha, if_neg ha]
    simp

/-- The parsed row always carries stepJobIdOf of field 11. -/
theorem parse_step (pd pf : String → Option Int) (vals : List String)
    (row : SqueueRow) (h : parse_from_strs pd pf vals = some row) :
    row.step_job_id = stepJobIdOf (vals.getD 11 "") := by
  unfold parse_from_strs at h
  split at h
  · exact absurd h (by simp)
  · generalize hA : parseU64 (vals.getD 3 "") = oA at h
    generalize hB : parseU64 (vals.getD 4 "") = oB at h
    generalize hC : parseU64 (vals.getD 5 "") = oC at h
    generalize hD : parseOptDate pd (vals.getD 6 "") = oD at h
    generalize hE : pf (vals.getD 17 "") = oE at h
    generalize hF : parseOptDate pd (vals.getD 21 "") = oF at h
    generalize hG : pd (vals.getD 22 "") = oG at h
    rcases oA with _ | a
    · simp at h
    rcases oB with _ | b
    · simp at h
    rcases oC with _ | c
    · simp at h
    rcases oD with _ | d
    · simp at h
    rcases oE with _ | e
    · simp at h
    rcases oF with _ | f
    · simp at h
    rcases oG with _ | g
    · simp at h
    simp only [Option.bind_some, Option.some.injEq, bind, Option.bind] at h
    rw [← h]

/-- C8 counterexample: for a STEPJOBID field with more than one underscore,
the parser keeps only the next split piece, not the whole remainder after
the first underscore: 1_2_3 yields ("1", some "2"), not ("1", some "2_3"). -/
theorem step_job_id_counterexample :
    (parse_from_strs (fun _ => some 0) (fun _ => some 0) cexVals).map
        (fun r => r.step_job_id) = some ("1", some "2") ∧
      (("1", some "2") : String × Option String) ≠ ("1", some "2_3") :=
  ⟨by decide, by decide⟩

/-- C8 amended: the row parser sets step_job_id to the pair of the substring
before the first underscore and, when an underscore is present, the substring
strictly between the first underscore and the following one (the next split
piece); for an input with more than one underscore the second component is
not the whole remainder. -/
theorem step_job_id_parse (pd pf : String → Option Int) (vals : List String)
    (row : SqueueRow) (h : parse_from_strs pd pf vals = some row) :
    row.step_job_id =
      (⟨(vals.getD 11 "").data.takeWhile (fun c => !(c == '_'))⟩,
        if (vals.getD 11 "").data.any (fun c => c == '_') then
          some ⟨(((vals.getD 11 "").data.dropWhile (fun c => !(c == '_'))).tail).takeWhile
            (fun c => !(c == '_'))⟩
        else none) := by
  rw [parse_step pd pf vals row h, stepJobIdOf_spec]

/-- Witness for step_job_id_parse at the concrete squeue line cexVals. -/
theorem step_job_id_parse_witness :
    parse_from_strs (fun _ => some 0) (fun _ => some 0) cexVals = some cexParsedRow ∧
      cexParsedRow.step_job_id =
        (⟨(cexVals.getD 11 "").data.takeWhile (fun c => !(c == '_'))⟩,
          if (cexVals.getD 11 "").data.any (fun c => c == '_') then
            some ⟨(((cexVals.getD 11 "").data.dropWhile (fun c => !(c == '_'))).tail).takeWhile
              (fun c => !(c == '_'))⟩
          else none) :=
  ⟨by decide,
   step_job_id_parse (fun _ => some 0) (fun _ => some 0) cexVals cexParsedRow (by decide)⟩

/-- One stepDf call keeps the row and the object id, appends exactly the
state-change event of the descriptor (when there is one), and preserves the
admissible Start ids. -/
theorem stepDf_props (dt : Int) (s : ReplayState) (df : RowDiff) :
    (stepDf dt s df).row = s.row ∧
    (stepDf dt s df).obj.id = s.obj.id ∧
    (stepDf dt s df).events.map (fun e => e.id) =
      s.events.map (fun e => e.id) ++
        (statePieces [df]).map (fun piece => piece ++ "_" ++ s.obj.id ++ "-" ++ Nat.repr 0) ∧
    (startIdOk s.obj.id s.startEv → startIdOk s.obj.id (stepDf dt s df).startEv) := by
  cases df
  case exec_host v => rcases v with _ | h <;> simp [stepDf, statePieces, startIdOk]
  case state v => cases v <;> simp [stepDf, stateEventInfo, statePieces, startIdOk]
  case start_time st =>
    rcases st with _ | st2
    · simp [stepDf, statePieces, startIdOk]
    · by_cases hp : s.row.state = JobState.PENDING
      · simp [stepDf, hp, statePieces, startIdOk]
      · rcases hse : s.startEv with _ | e
        · simp [stepDf, hp, hse, statePieces, startIdOk]
        · simp only [stepDf, hp, hse, statePieces, startIdOk]
          refine ⟨by simp [hp, hse], by simp [hp, hse], by simp [hp, hse, statePieces], ?_⟩
          intro hok e2 he2
          simp [hp, hse] at he2
          rw [← he2]
          exact hok e rfl
  all_goals simp [stepDf, statePieces, startIdOk]

/-- statePieces distributes over a cons. -/
theorem statePieces_cons (df : RowDiff) (rest : List RowDiff) :
    statePieces (df :: rest) = statePieces [df] ++ statePieces rest := by
  cases df
  case state v => cases hsv : stateEventInfo v <;> simp [statePieces, hsv]
  all_goals simp [statePieces]

/-- The inner for-df loop of the replay: row and object id are kept, the
state-change events of the descriptor list are appended in order, and the
admissible Start ids are preserved. -/
theorem foldl_stepDf (dt : Int) (ds : List RowDiff) :
    ∀ s : ReplayState,
      (ds.foldl (stepDf dt) s).row = s.row ∧
      (ds.foldl (stepDf dt) s).obj.id = s.obj.id ∧
      (ds.foldl (stepDf dt) s).events.map (fun e => e.id) =
        s.events.map (fun e => e.id) ++
          (statePieces ds).map (fun piece => piece ++ "_" ++ s.obj.id ++ "-" ++ Nat.repr 0) ∧
      (startIdOk s.obj.id s.startEv → startIdOk s.obj.id (ds.foldl (stepDf dt) s).startEv) := by
  induction ds with
  | nil => intro s; simp [statePieces]
  | cons df rest ih =>
    intro s
    obtain ⟨hrow, hid, hev, hst⟩ := stepDf_props dt s df
    obtain ⟨ihrow, ihid, ihev, ihst⟩ := ih (stepDf dt s df)
    rw [List.foldl_cons]
    refine ⟨by rw [ihrow, hrow], by rw [ihid, hid], ?_, ?_⟩
    · rw [ihev, hev, hid, statePieces_cons df rest, List.map_append, List.append_assoc]
    · intro hok
      have := ihst
      rw [hid] at this
      exact this (hst hok)

/-- One DELTA file of the replay: object id kept, state-change events of the
delta appended, admissible Start ids preserved. -/
theorem stepDelta_props (s : ReplayState) (d : Int × List RowDiff) :
    (stepDelta s d).obj.id = s.obj.id ∧
    (stepDelta s d).events.map (fun e => e.id) =
      s.events.map (fun e => e.id) ++
        (statePieces d.2).map (fun piece => piece ++ "_" ++ s.obj.id ++ "-" ++ Nat.repr 0) ∧
    (startIdOk s.obj.id s.startEv → startIdOk s.obj.id (stepDelta s d).startEv) := by
  obtain ⟨hrow, hid, hev, hst⟩ :=
    foldl_stepDf d.1 d.2 { s with row := applyList s.row d.2 }
  exact ⟨hid, hev, hst⟩

/-- The whole delta replay: object id kept, all state-change events
appended, admissible Start ids preserved. -/
theorem foldl_stepDelta (deltas : List (Int × List RowDiff)) :
    ∀ s : ReplayState,
      (deltas.foldl stepDelta s).obj.id = s.obj.id ∧
      (deltas.foldl stepDelta s).events.map (fun e => e.id) =
        s.events.map (fun e => e.id) ++
          (emittedPieces deltas).map (fun piece => piece ++ "_" ++ s.obj.id ++ "-" ++ Nat.repr 0) ∧
      (startIdOk s.obj.id s.startEv → startIdOk s.obj.id (deltas.foldl stepDelta s).startEv) := by
  induction deltas with
  | nil => intro s; simp [emittedPieces]
  | cons d rest ih =>
    intro s
    obtain ⟨hid, hev, hst⟩ := stepDelta_props s d
    obtain ⟨ihid, ihev, ihst⟩ := ih (stepDelta s d)
    rw [List.foldl_cons]
    refine ⟨by rw [ihid, hid], ?_, ?_⟩
    · rw [ihev, hev, hid]
      have hsp : emittedPieces (d :: rest) = statePieces d.2 ++ emittedPieces rest := by
        simp [emittedPieces]
      rw [hsp, List.map_append, List.append_assoc]
    · intro hok
      have h2 := ihst
      rw [hid] at h2
      exact h2 (hst hok)

/-- The event ids of one replayed job: the Submit id, then the state-change
ids in replay order, then at most one Start id of one of the two admissible
forms. -/
theorem processJob_event_ids (jb : JobInput) :
    ∃ startIds : List String,
      ((processJob jb).2).map (fun e => e.id) =
        ("submit-" ++ jb.row0.job_id ++ "-" ++ Nat.repr 0) ::
          ((emittedPieces jb.deltas).map (fun piece =>
            piece ++ "_" ++ jb.row0.job_id ++ "-" ++ Nat.repr 0) ++ startIds) ∧
      startIds.length ≤ 1 ∧
      (∀ x ∈ startIds, x = "start-" ++ jb.row0.job_id ++ "-" ++ Nat.repr 0 ∨
        x = "start-" ++ jb.row0.job_id ++ "-" ++ Nat.repr 1) := by
  obtain ⟨hid, hev, hst⟩ := foldl_stepDelta jb.deltas (processJobInit jb)
  have hinitid : (processJobInit jb).obj.id = jb.row0.job_id := rfl
  have hinitev : (processJobInit jb).events.map (fun e => e.id)
      = ["submit-" ++ jb.row0.job_id ++ "-" ++ Nat.repr 0] := rfl
  have hinitok : startIdOk (processJobInit jb).obj.id (processJobInit jb).startEv := by
    intro e he
    unfold processJobInit at he
    by_cases hp : jb.row0.state = JobState.PENDING
    · simp [hp] at he
    · rcases hstt : jb.row0.start_time with _ | st
      · simp [hp, hstt] at he
      · simp [hp, hstt] at he
        right
        rw [← he]
        rfl
  refine ⟨((jb.deltas.foldl stepDelta (processJobInit jb)).startEv.toList).map
    (fun e => e.id), ?_, ?_, ?_⟩
  · have hsplit : (processJob jb).2 =
        (jb.deltas.foldl stepDelta (processJobInit jb)).events ++
          (jb.deltas.foldl stepDelta (processJobInit jb)).startEv.toList := rfl
    rw [hsplit, List.map_append, hev, hinitev, hinitid]
    simp [List.append_assoc]
  · cases (jb.deltas.foldl stepDelta (processJobInit jb)).startEv <;> simp
  · intro x hx
    have hok := hst hinitok
    rw [hinitid] at hok
    cases hse : (jb.deltas.foldl stepDelta (processJobInit jb)).startEv with
    | none => rw [hse] at hx; simp at hx
    | some e =>
      rw [hse] at hx
      simp at hx
      rw [hx]
      exact hok e hse


/-- Every state-change id piece is one of the seven terminal pieces. -/
theorem statePieces_mem (ds : List RowDiff) :
    ∀ p ∈ statePieces ds,
      p ∈ (["ending-", "ended-", "cancelled-", "failed-", "timeout-", "oom-",
        "node-fail-"] : List String) := by
  intro p hp
  unfold statePieces at hp
  obtain ⟨df, hdf, hfp⟩ := List.mem_filterMap.mp hp
  cases df
  case state v =>
    cases v <;> simp [stateEventInfo] at hfp <;> simp [← hfp]
  all_goals simp at hfp

/-- Every emitted id piece of a delta stream is one of the seven terminal
pieces. -/
theorem emittedPieces_mem (deltas : List (Int × List RowDiff)) :
    ∀ p ∈ emittedPieces deltas,
      p ∈ (["ending-", "ended-", "cancelled-", "failed-", "timeout-", "oom-",
        "node-fail-"] : List String) := by
  intro p hp
  obtain ⟨d, _, hdp⟩ := List.mem_flatMap.mp hp
  exact statePieces_mem d.2 p hdp

/-- Shape analysis of every emitted event id. -/
theorem event_id_shapes (jb : JobInput) (e : Event) (he : e ∈ (processJob jb).2) :
    e.id = "submit-" ++ jb.row0.job_id ++ "-" ++ Nat.repr 0 ∨
    e.id = "start-" ++ jb.row0.job_id ++ "-" ++ Nat.repr 1 ∨
    e.id = "start-" ++ jb.row0.job_id ++ "-" ++ Nat.repr 0 ∨
    ∃ piece ∈ (["ending-", "ended-", "cancelled-", "failed-", "timeout-", "oom-",
      "node-fail-"] : List String),
      e.id = piece ++ "_" ++ jb.row0.job_id ++ "-" ++ Nat.repr 0 := by
  obtain ⟨startIds, hmap, hlen, hforms⟩ := processJob_event_ids jb
  have hmem : e.id ∈ ((processJob jb).2).map (fun e => e.id) :=
    List.mem_map_of_mem _ he
  rw [hmap] at hmem
  rcases List.mem_cons.mp hmem with h | h
  · exact Or.inl h
  rcases List.mem_append.mp h with h | h
  · obtain ⟨piece, hpc, hpe⟩ := List.mem_map.mp h
    exact Or.inr (Or.inr (Or.inr ⟨piece, emittedPieces_mem _ piece hpc, hpe.symm⟩))
  · rcases hforms e.id h with h1 | h1
    · exact Or.inr (Or.inr (Or.inl h1))
    · exact Or.inr (Or.inl h1)

/-- C1 amended: every event id the synthesizer emits for a job has one of
the forms submit-{job_id}-0 (Submit), start-{job_id}-1 (bootstrap Start),
start-{job_id}-0 (Start from a start_time delta), or
{piece}_{job_id}-0 with piece among ending-, ended-, cancelled-, failed-,
timeout-, oom-, node-fail- (state change; note the underscore the source
splices between the piece and the base id).  The trailing index is the
length of the global event list, which is still empty during the per-job
phase, or of the local list for the Submit and bootstrap Start events; it is
not a per-job monotonically increasing counter. -/
theorem event_id_forms (jb : JobInput) (e : Event) (he : e ∈ (processJob jb).2) :
    e.id = "submit-" ++ jb.row0.job_id ++ "-" ++ Nat.repr 0 ∨
    e.id = "start-" ++ jb.row0.job_id ++ "-" ++ Nat.repr 1 ∨
    e.id = "start-" ++ jb.row0.job_id ++ "-" ++ Nat.repr 0 ∨
    ∃ piece ∈ (["ending-", "ended-", "cancelled-", "failed-", "timeout-", "oom-",
      "node-fail-"] : List String),
      e.id = piece ++ "_" ++ jb.row0.job_id ++ "-" ++ Nat.repr 0 :=
  event_id_shapes jb e he

/-- Witness for event_id_forms at the concrete job cexJob1 and its
state-change event. -/
theorem event_id_forms_witness :
    cexEvent ∈ (processJob cexJob1).2 ∧
      (cexEvent.id = "submit-" ++ cexJob1.row0.job_id ++ "-" ++ Nat.repr 0 ∨
       cexEvent.id = "start-" ++ cexJob1.row0.job_id ++ "-" ++ Nat.repr 1 ∨
       cexEvent.id = "start-" ++ cexJob1.row0.job_id ++ "-" ++ Nat.repr 0 ∨
       ∃ piece ∈ (["ending-", "ended-", "cancelled-", "failed-", "timeout-", "oom-",
         "node-fail-"] : List String),
         cexEvent.id = piece ++ "_" ++ cexJob1.row0.job_id ++ "-" ++ Nat.repr 0) :=
  ⟨by decide, event_id_forms cexJob1 cexEvent (by decide)⟩

/-- C1 counterexample: the state-change event of cexJob1 has id ended-_1-0,
which is not of the form {type-front}{job_id}-{sequence} for any of the nine
fronts of the spec and any sequence number: the source splices an extra
underscore after the front. -/
theorem event_id_scheme_counterexample :
    ¬ (∀ e ∈ (processJob cexJob1).2, ∃ piece ∈ eventIdPieces, ∃ n : Nat,
        e.id = piece ++ cexJob1.row0.job_id ++ "-" ++ Nat.repr n) := by
  intro hall
  obtain ⟨piece, hp, n, hn⟩ := hall cexEvent (by decide)
  have hjid : cexJob1.row0.job_id = "1" := rfl
  have hid : cexEvent.id = "ended-_1-0" := rfl
  rw [hjid, hid] at hn
  fin_cases hp <;>
    exact absurd (congrArg String.data hn) (by simp [String.data_append])

/-- Two schema-built ids can only be equal when the job ids agree. -/
theorem mkId_inj (s1 : IdSchema) (h1 : s1 ∈ schemas) (s2 : IdSchema)
    (h2 : s2 ∈ schemas) (j1 j2 : String) (h : mkId s1 j1 = mkId s2 j2) :
    j1 = j2 := by
  fin_cases h1 <;> fin_cases h2 <;>
    (have hd := congrArg String.data h
     first
       | (simp [mkId, String.data_append] at hd; done)
       | (simp [mkId, String.data_append] at hd; exact String.ext hd)
       | (simp [mkId, String.data_append] at hd
          have hl := congrArg List.getLast? hd
          rw [List.getLast?_append_of_ne_nil _ (by simp),
            List.getLast?_append_of_ne_nil _ (by simp)] at hl
          simp at hl))

/-- The terminal id pieces are recoverable from the spliced id. -/
theorem piece_append_inj (j : String) (p1 : String)
    (h1 : p1 ∈ (["ending-", "ended-", "cancelled-", "failed-", "timeout-", "oom-",
      "node-fail-"] : List String)) (p2 : String)
    (h2 : p2 ∈ (["ending-", "ended-", "cancelled-", "failed-", "timeout-", "oom-",
      "node-fail-"] : List String))
    (h : p1 ++ "_" ++ j ++ "-" ++ Nat.repr 0 = p2 ++ "_" ++ j ++ "-" ++ Nat.repr 0) :
    p1 = p2 := by
  fin_cases h1 <;> fin_cases h2 <;>
    first
      | rfl
      | exact absurd (congrArg String.data h) (by simp [String.data_append])

/-- The object id of a replayed job is the job id of its initial row. -/
theorem processJob_obj_id (jb : JobInput) : (processJob jb).1.id = jb.row0.job_id := by
  have h := (foldl_stepDelta jb.deltas (processJobInit jb)).1
  exact h

/-- Every emitted event id is a schema instance at the job id. -/
theorem processJob_ids_schema (jb : JobInput) (i : String)
    (hi : i ∈ ((processJob jb).2).map (fun e => e.id)) :
    ∃ s ∈ schemas, i = mkId s jb.row0.job_id := by
  obtain ⟨e, he, hei⟩ := List.mem_map.mp hi
  rcases event_id_shapes jb e he with h | h | h | ⟨piece, hpc, h⟩
  · refine ⟨⟨"submit-", "-0"⟩, by decide, ?_⟩
    rw [← hei, h]
    apply String.ext
    simp [mkId, String.data_append, show Nat.repr 0 = "0" from rfl,
      show Nat.repr 1 = "1" from rfl]
  · refine ⟨⟨"start-", "-1"⟩, by decide, ?_⟩
    rw [← hei, h]
    apply String.ext
    simp [mkId, String.data_append, show Nat.repr 0 = "0" from rfl,
      show Nat.repr 1 = "1" from rfl]
  · refine ⟨⟨"start-", "-0"⟩, by decide, ?_⟩
    rw [← hei, h]
    apply String.ext
    simp [mkId, String.data_append, show Nat.repr 0 = "0" from rfl,
      show Nat.repr 1 = "1" from rfl]
  · fin_cases hpc
    · refine ⟨⟨"ending-_", "-0"⟩, by decide, ?_⟩
      rw [← hei, h]
      apply String.ext
      simp [mkId, String.data_append, show Nat.repr 0 = "0" from rfl]
    · refine ⟨⟨"ended-_", "-0"⟩, by decide, ?_⟩
      rw [← hei, h]
      apply String.ext
      simp [mkId, String.data_append, show Nat.repr 0 = "0" from rfl]
    · refine ⟨⟨"cancelled-_", "-0"⟩, by decide, ?_⟩
      rw [← hei, h]
      apply String.ext
      simp [mkId, String.data_append, show Nat.repr 0 = "0" from rfl]
    · refine ⟨⟨"failed-_", "-0"⟩, by decide, ?_⟩
      rw [← hei, h]
      apply String.ext
      simp [mkId, String.data_append, show Nat.repr 0 = "0" from rfl]
    · refine ⟨⟨"timeout-_", "-0"⟩, by decide, ?_⟩
      rw [← hei, h]
      apply String.ext
      simp [mkId, String.data_append, show Nat.repr 0 = "0" from rfl]
    · refine ⟨⟨"oom-_", "-0"⟩, by decide, ?_⟩
      rw [← hei, h]
      apply String.ext
      simp [mkId, String.data_append, show Nat.repr 0 = "0" from rfl]
    · refine ⟨⟨"node-fail-_", "-0"⟩, by decide, ?_⟩
      rw [← hei, h]
      apply String.ext
      simp [mkId, String.data_append, show Nat.repr 0 = "0" from rfl]

/-- The event ids of one replayed job are pairwise distinct, provided the
job emits no two state-change events of the same type. -/
theorem processJob_ids_nodup (jb : JobInput)
    (hpie : (emittedPieces jb.deltas).Nodup) :
    (((processJob jb).2).map (fun e => e.id)).Nodup := by
  obtain ⟨startIds, hmap, hlen, hforms⟩ := processJob_event_ids jb
  rw [hmap]
  refine List.nodup_cons.mpr ⟨?_, ?_⟩
  · intro hmem
    rcases List.mem_append.mp hmem with h | h
    · obtain ⟨piece, hpc, hpe⟩ := List.mem_map.mp h
      have hpc7 := emittedPieces_mem _ piece hpc
      fin_cases hpc7 <;>
        exact absurd (congrArg String.data hpe) (by simp [String.data_append])
    · rcases hforms _ h with h1 | h1 <;>
        exact absurd (congrArg String.data h1) (by simp [String.data_append])
  · refine List.nodup_append.mpr ⟨?_, ?_, ?_⟩
    · apply List.Nodup.map_on ?_ hpie
      intro p1 hp1 p2 hp2 heq
      exact piece_append_inj jb.row0.job_id p1 (emittedPieces_mem _ p1 hp1) p2
        (emittedPieces_mem _ p2 hp2) heq
    · rcases startIds with _ | ⟨a, _ | ⟨b, t⟩⟩
      · simp
      · simp
      · simp at hlen
    · intro x hx1 hx2
      obtain ⟨piece, hpc, hpe⟩ := List.mem_map.mp hx1
      have hpc7 := emittedPieces_mem _ piece hpc
      rcases hforms x hx2 with h1 | h1 <;> rw [h1] at hpe <;>
        fin_cases hpc7 <;>
          exact absurd (congrArg String.data hpe) (by simp [String.data_append])

/-- Across jobs with pairwise distinct job ids, the flattened event id lists
are pairwise disjoint and the whole OCEL event id list is duplicate-free,
provided each job emits no two state-change events of the same type. -/
theorem extract_ocel_events_nodup (jobs : List JobInput)
    (hids : (jobs.map (fun jb => jb.row0.job_id)).Nodup)
    (hpieces : ∀ jb ∈ jobs, (emittedPieces jb.deltas).Nodup) :
    (((extract_ocel jobs).events).map (fun e => e.id)).Nodup := by
  have hev : (extract_ocel jobs).events = jobs.flatMap (fun jb => (processJob jb).2) := rfl
  rw [hev, List.map_flatMap]
  apply List.nodup_flatMap.mpr
  constructor
  · intro jb hjb
    exact processJob_ids_nodup jb (hpieces jb hjb)
  · have hpw : jobs.Pairwise (fun a b => a.row0.job_id ≠ b.row0.job_id) := by
      rw [List.Nodup, List.pairwise_map] at hids
      exact hids
    apply List.Pairwise.imp ?_ hpw
    intro a b hne x hxa hxb
    obtain ⟨s1, hs1, he1⟩ := processJob_ids_schema a x hxa
    obtain ⟨s2, hs2, he2⟩ := processJob_ids_schema b x hxb
    exact hne (mkId_inj s1 hs1 s2 hs2 _ _ (by rw [← he1, ← he2]))

/-- Appending to a fixed front part is injective. -/
theorem prefix_append_inj (p a b : String) (h : p ++ a = p ++ b) : a = b := by
  have hd := congrArg String.data h
  rw [String.data_append, String.data_append] at hd
  exact String.ext (List.append_cancel_left hd)

/-- The front part of a prefixed id is a prefix of it. -/
theorem prefix_of_prefixed (p a : String) :
    (p.data).isPrefixOf ((p ++ a).data) = true := by
  rw [String.data_append]
  exact isPrefixOf_self_append _ _

/-- Job object ids and q-prefixed secondary ids are disjoint when no job id
starts with q. -/
theorem job_vs_prefixed (jobs : List JobInput)
    (hpre : ∀ jb ∈ jobs, ∀ q ∈ (["acc_", "group_", "part_", "host_"] : List String),
      (q.data).isPrefixOf jb.row0.job_id.data = false)
    (q : String) (hq : q ∈ (["acc_", "group_", "part_", "host_"] : List String))
    (l : List String) :
    List.Disjoint (jobs.map (fun jb => jb.row0.job_id)) (l.map (fun a => q ++ a)) := by
  intro x hx1 hx2
  obtain ⟨jb, hjb, hxe⟩ := List.mem_map.mp hx1
  obtain ⟨a, _, hxa⟩ := List.mem_map.mp hx2
  have hfalse := hpre jb hjb q hq
  have hx : jb.row0.job_id = q ++ a := by rw [hxe, ← hxa]
  rw [hx, prefix_of_prefixed] at hfalse
  exact Bool.noConfusion hfalse

/-- Two differently prefixed secondary id lists are disjoint. -/
theorem prefixed_disjoint (q1 q2 : String)
    (hq : ∀ a b : String, (q1 ++ a : String) ≠ q2 ++ b) (l1 l2 : List String) :
    List.Disjoint (l1.map (fun a => q1 ++ a)) (l2.map (fun a => q2 ++ a)) := by
  intro x hx1 hx2
  obtain ⟨a, _, hxa⟩ := List.mem_map.mp hx1
  obtain ⟨b, _, hxb⟩ := List.mem_map.mp hx2
  exact hq a b (by rw [hxa, hxb])

/-- A q-prefixed duplicate-free list stays duplicate-free. -/
theorem prefixed_nodup (q : String) (l : List String) (h : l.Nodup) :
    (l.map (fun a => q ++ a)).Nodup :=
  h.map (fun a b hab => prefix_append_inj q a b hab)

/-- The object ids of the assembled OCEL are pairwise distinct, provided the
job ids are pairwise distinct and no job id starts with one of the four
secondary front parts. -/
theorem extract_ocel_objects_nodup (jobs : List JobInput)
    (hids : (jobs.map (fun jb => jb.row0.job_id)).Nodup)
    (hpre : ∀ jb ∈ jobs, ∀ q ∈ (["acc_", "group_", "part_", "host_"] : List String),
      (q.data).isPrefixOf jb.row0.job_id.data = false) :
    (((extract_ocel jobs).objects).map (fun o => o.id)).Nodup := by
  have hobj : ((extract_ocel jobs).objects).map (fun o => o.id) =
      (((jobs.map (fun jb => jb.row0.job_id) ++
        (allAccounts jobs).map (fun a => "acc_" ++ a)) ++
        (allGroups jobs).map (fun a => "group_" ++ a)) ++
        (allPartitions jobs).map (fun a => "part_" ++ a)) ++
        (allHosts jobs).map (fun a => "host_" ++ a) := by
    simp only [extract_ocel, List.map_append, List.map_map]
    congr 4
    rw [Function.comp_def]
    exact List.map_congr_left (fun jb _ => processJob_obj_id jb)
  rw [hobj]
  have hA := hids
  have hB := prefixed_nodup "acc_" (allAccounts jobs) (List.nodup_dedup _)
  have hC := prefixed_nodup "group_" (allGroups jobs) (List.nodup_dedup _)
  have hD := prefixed_nodup "part_" (allPartitions jobs) (List.nodup_dedup _)
  have hE := prefixed_nodup "host_" (allHosts jobs) (List.nodup_dedup _)
  refine List.nodup_append.mpr ⟨?_, hE, ?_⟩
  · refine List.nodup_append.mpr ⟨?_, hD, ?_⟩
    · refine List.nodup_append.mpr ⟨?_, hC, ?_⟩
      · refine List.nodup_append.mpr ⟨hA, hB, ?_⟩
        · exact job_vs_prefixed jobs hpre "acc_" (by decide) _
      · intro x hx1 hx2
        rcases List.mem_append.mp hx1 with h | h
        · exact job_vs_prefixed jobs hpre "group_" (by decide) _ h hx2
        · exact prefixed_disjoint "acc_" "group_"
            (fun a b he => absurd (congrArg String.data he)
              (by simp [String.data_append])) _ _ h hx2
    · intro x hx1 hx2
      rcases List.mem_append.mp hx1 with h | h
      · rcases List.mem_append.mp h with h2 | h2
        · exact job_vs_prefixed jobs hpre "part_" (by decide) _ h2 hx2
        · exact prefixed_disjoint "acc_" "part_"
            (fun a b he => absurd (congrArg String.data he)
              (by simp [String.data_append])) _ _ h2 hx2
      · exact prefixed_disjoint "group_" "part_"
          (fun a b he => absurd (congrArg String.data he)
            (by simp [String.data_append])) _ _ h hx2
  · intro x hx1 hx2
    rcases List.mem_append.mp hx1 with h | h
    · rcases List.mem_append.mp h with h2 | h2
      · rcases List.mem_append.mp h2 with h3 | h3
        · exact job_vs_prefixed jobs hpre "host_" (by decide) _ h3 hx2
        · exact prefixed_disjoint "acc_" "host_"
            (fun a b he => absurd (congrArg String.data he)
              (by simp [String.data_append])) _ _ h3 hx2
      · exact prefixed_disjoint "group_" "host_"
          (fun a b he => absurd (congrArg String.data he)
            (by simp [String.data_append])) _ _ h2 hx2
    · exact prefixed_disjoint "part_" "host_"
        (fun a b he => absurd (congrArg String.data he)
          (by simp [String.data_append])) _ _ h hx2

/-- C9 counterexample: a job whose delta stream changes state to CANCELLED,
back to PENDING, and to CANCELLED again produces two events with the same id
cancelled-_1-0 (the sequence part is the length of the still-empty global
event list), so the OCEL ids are not pairwise distinct. -/
theorem ocel_id_duplicate_counterexample :
    ((extract_ocel [cexJob9]).events.map (fun e => e.id)) =
      ["submit-1-0", "cancelled-_1-0", "cancelled-_1-0"] ∧
    ¬ ((((extract_ocel [cexJob9]).objects).map (fun o => o.id)).Nodup ∧
       (((extract_ocel [cexJob9]).events).map (fun e => e.id)).Nodup) :=
  ⟨by decide, fun h => absurd h.2 (by decide)⟩

/-- C9 amended: the OCEL produced by synthesis has pairwise distinct object
ids and pairwise distinct event ids provided (a) the archived job ids are
pairwise distinct, (b) no job id starts with acc_, group_, part_ or host_
(else a Job object id can collide with a prefixed secondary object id), and
(c) no job emits two state-change events of the same type (else the two
events share an id, since the sequence part of a state-change id is the
length of the global event list, which is empty during the per-job phase). -/
theorem ocel_id_uniqueness (jobs : List JobInput)
    (hids : (jobs.map (fun jb => jb.row0.job_id)).Nodup)
    (hpre : ∀ jb ∈ jobs, ∀ q ∈ (["acc_", "group_", "part_", "host_"] : List String),
      (q.data).isPrefixOf jb.row0.job_id.data = false)
    (hpieces : ∀ jb ∈ jobs, (emittedPieces jb.deltas).Nodup) :
    (((extract_ocel jobs).objects).map (fun o => o.id)).Nodup ∧
      (((extract_ocel jobs).events).map (fun e => e.id)).Nodup :=
  ⟨extract_ocel_objects_nodup jobs hids hpre,
   extract_ocel_events_nodup jobs hids hpieces⟩

/-- Witness for ocel_id_uniqueness at a one-job archive. -/
theorem ocel_id_uniqueness_witness :
    ((([cexJob1].map (fun jb => jb.row0.job_id)).Nodup ∧
      (∀ jb ∈ [cexJob1], ∀ q ∈ (["acc_", "group_", "part_", "host_"] : List String),
        (q.data).isPrefixOf jb.row0.job_id.data = false) ∧
      (∀ jb ∈ [cexJob1], (emittedPieces jb.deltas).Nodup)) ∧
     ((((extract_ocel [cexJob1]).objects).map (fun o => o.id)).Nodup ∧
      (((extract_ocel [cexJob1]).events).map (fun e => e.id)).Nodup)) :=
  ⟨⟨by decide, by decide, by decide⟩,
   ocel_id_uniqueness [cexJob1] (by decide) (by decide) (by decide)⟩

end Slurry
